import Mathlib

/-!
Verification development for the dconf client-side engine and changeset
library (GNOME/dconf).  The definitions below are shallow embeddings of
the C sources in src/common/dconf-changeset.c and
src/engine/dconf-engine.c; hash tables are modelled as association
lists (the C iteration order over a GHashTable is unspecified, the list
order plays that role), GVariant values as a small inductive type with
structural equality, and GVDB tables as association lists from key
strings to values.
-/

set_option maxRecDepth 4000

/-- A GVariant value: a tagged variant with structural equality
(g_variant_equal).  The claims only depend on decidable equality of
values, so a representative selection of the variant types suffices. -/
inductive Val where
  | vb (b : Bool)
  | vi (n : Int)
  | vs (s : String)
  deriving DecidableEq, Repr

/-- g_str_has_prefix (s, p): s begins with p. -/
def strStarts (s p : String) : Bool :=
  p.toList.isPrefixOf s.toList

/-- g_str_has_suffix (s, p): s ends with p. -/
def strEnds (s p : String) : Bool :=
  p.toList.isSuffixOf s.toList

/-- Does the character list contain two consecutive slashes? -/
def hasDoubleSlash : List Char → Bool
  | [] => false
  | [_] => false
  | a :: b :: rest => (a = '/' && b = '/') || hasDoubleSlash (b :: rest)

/-- Modelled from the spec: dconf-paths.c is not in the source tree.
Spec section 3: a path is a non-empty string beginning with a slash;
section 4.1 lists the failure kinds empty, no_leading_slash and
double_slash for absolute paths. -/
def dconf_is_path (s : String) : Bool :=
  !s.isEmpty && strStarts s "/" && !hasDoubleSlash s.toList

/-- Modelled from the spec: dconf-paths.c is not in the source tree.
A dir is a path ending with a slash. -/
def dconf_is_dir (s : String) : Bool :=
  dconf_is_path s && strEnds s "/"

/-- Modelled from the spec: dconf-paths.c is not in the source tree.
A key is a path not ending with a slash. -/
def dconf_is_key (s : String) : Bool :=
  dconf_is_path s && !strEnds s "/"

/-- Modelled from the spec: dconf-paths.c is not in the source tree.
A relative path is non-empty, does not begin with a slash and contains
no double slash. -/
def dconf_is_rel_path (s : String) : Bool :=
  !s.isEmpty && !strStarts s "/" && !hasDoubleSlash s.toList

/-- The contents of a GHashTable mapping paths to optional GVariant
values (NULL values are allowed, marking resets). -/
abbrev Tbl := List (String × Option Val)

/-- g_hash_table_insert: replace the value at the key if it is present,
otherwise add the pair. -/
def tblInsert (k : String) (v : Option Val) : Tbl → Tbl
  | [] => [(k, v)]
  | e :: rest => if e.1 = k then (k, v) :: rest else e :: tblInsert k v rest

/-- g_hash_table_remove. -/
def tblRemove (k : String) (t : Tbl) : Tbl :=
  t.filter (fun e => e.1 != k)

/-- g_hash_table_lookup_extended: none means the key is absent, some v
means it is present with (optional) value v. -/
def tblGet (t : Tbl) (k : String) : Option (Option Val) :=
  (t.find? (fun e => e.1 == k)).map (fun e => e.2)

/-- The key set of a table has no duplicates; every table reachable via
the changeset operations satisfies this. -/
def tblWF (t : Tbl) : Prop :=
  (t.map Prod.fst).Nodup

instance (t : Tbl) : Decidable (tblWF t) := by
  unfold tblWF; infer_instance

/-- struct _DConfChangeset (dconf-changeset.c): a hash table from paths
to optional values plus the is_database and is_sealed flags.  The
prefix/paths/values description arrays built by sealing are a cache of
the sorted table contents and are recomputed on demand here. -/
structure DConfChangeset where
  table : Tbl
  is_database : Bool
  is_sealed : Bool
  deriving DecidableEq, Repr

/-- dconf_changeset_new: a new, empty changeset in delta mode. -/
def dconf_changeset_new : DConfChangeset :=
  { table := [], is_database := false, is_sealed := false }

/-- dconf_changeset_new_database: an empty database-mode changeset,
optionally seeded with the contents of another database changeset. -/
def dconf_changeset_new_database (copy_of : Option DConfChangeset) : DConfChangeset :=
  match copy_of with
  | none => { table := [], is_database := true, is_sealed := false }
  | some c => { table := c.table, is_database := true, is_sealed := false }

/-- dconf_changeset_set, translated line by line.  The g_return_if_fail
preconditions (sealed changeset, invalid path, value supplied for a
dir) leave the changeset unmodified. -/
def dconf_changeset_set (c : DConfChangeset) (path : String) (value : Option Val) :
    DConfChangeset :=
  if c.is_sealed then c
  else if !dconf_is_path path then c
  else if strEnds path "/" then
    -- a path reset
    if value.isSome then c
    else
      let t := c.table.filter (fun e => !strStarts e.1 path)
      if !c.is_database then { c with table := tblInsert path none t }
      else { c with table := t }
  else if value.isNone then
    -- a value reset
    if !c.is_database then { c with table := tblInsert path none c.table }
    else { c with table := tblRemove path c.table }
  else
    -- a normal write
    { c with table := tblInsert path value c.table }

/-- dconf_changeset_get: none when the changeset does not touch the
key, some none for a reset, some (some v) for a write. -/
def dconf_changeset_get (c : DConfChangeset) (key : String) : Option (Option Val) :=
  tblGet c.table key

/-- dconf_changeset_is_empty. -/
def dconf_changeset_is_empty (c : DConfChangeset) : Bool :=
  c.table.isEmpty

/-- dconf_changeset_all: the predicate holds of every entry. -/
def dconf_changeset_all (c : DConfChangeset) (p : String → Option Val → Bool) : Bool :=
  c.table.all (fun e => p e.1 e.2)

/-- dconf_changeset_seal only sets the flag and builds the description
cache; the table is unchanged. -/
def dconf_changeset_seal (c : DConfChangeset) : DConfChangeset :=
  { c with is_sealed := true }

/-- The entry list in the order produced by sealing: sorted by path
(the common prefix is shared, so sorting the suffixes by strcmp sorts
the full paths).  The writer relies on dir resets sorting before writes
to keys inside that dir. -/
def dconf_changeset_describe (c : DConfChangeset) : List (String × Option Val) :=
  c.table.mergeSort (fun a b => a.1 ≤ b.1)

/-- dconf_changeset_serialise: the a{smv} dictionary, one entry per
table item. -/
def dconf_changeset_serialise (c : DConfChangeset) : List (String × Option Val) :=
  c.table

/-- The loop body of dconf_changeset_deserialise: a NULL value may
reset a key or a dir (any valid path), a non-NULL value may only be
assigned to a valid key; invalid cases are ignored. -/
def deserialiseStep (t : Tbl) (e : String × Option Val) : Tbl :=
  match e.2 with
  | none => if dconf_is_path e.1 then tblInsert e.1 none t else t
  | some v => if dconf_is_key e.1 then tblInsert e.1 (some v) t else t

/-- dconf_changeset_deserialise: rebuild a delta-mode changeset,
silently dropping malformed entries (a NULL value needs a valid path, a
non-NULL value needs a valid key). -/
def dconf_changeset_deserialise (serialised : List (String × Option Val)) :
    DConfChangeset :=
  { table := serialised.foldl deserialiseStep [],
    is_database := false, is_sealed := false }

/-- A well-formed changeset entry: a dir carries no value, so a valued
entry is at a key; every entry is at a valid path. -/
def entryOK (e : String × Option Val) : Bool :=
  match e.2 with
  | none => dconf_is_path e.1
  | some _ => dconf_is_key e.1

/-- dconf_changeset_change: apply the entries of changes to the target,
visiting them in the sorted order built by describe so that dir resets
act before writes inside that dir.  A sealed target is not modified
(g_return_if_fail); an empty changes set returns early. -/
def dconf_changeset_change (c changes : DConfChangeset) : DConfChangeset :=
  if c.is_sealed then c
  else if changes.table.isEmpty then c
  else (dconf_changeset_describe changes).foldl
    (fun acc e => dconf_changeset_set acc e.1 e.2) c

/-- The first-pass loop body of dconf_changeset_diff: any key of the
target whose value differs from (or is absent in) the origin is
recorded as a write.  g_hash_table_lookup cannot tell an absent key
from a stored NULL, hence the join. -/
def dconf_changeset_diff_step1 (from_cs : DConfChangeset)
    (acc : Option DConfChangeset) (e : String × Option Val) :
    Option DConfChangeset :=
  if (tblGet from_cs.table e.1).join != e.2 then
    some (dconf_changeset_set (acc.getD dconf_changeset_new) e.1 e.2)
  else acc

/-- The second-pass loop body of dconf_changeset_diff: any key of the
origin missing from the target is recorded as a reset. -/
def dconf_changeset_diff_step2 (to_cs : DConfChangeset)
    (acc : Option DConfChangeset) (e : String × Option Val) :
    Option DConfChangeset :=
  if ((tblGet to_cs.table e.1).join).isNone then
    some (dconf_changeset_set (acc.getD dconf_changeset_new) e.1 none)
  else acc

/-- dconf_changeset_diff: two passes over database changesets.  Keys of
the target that are missing or changed in the origin are recorded as
writes; keys of the origin missing from the target are recorded as
resets.  NULL when there is no difference (or when either argument is
not in database mode, per g_return_val_if_fail); the changeset is
allocated lazily on the first recorded difference. -/
def dconf_changeset_diff (from_cs to_cs : DConfChangeset) :
    Option DConfChangeset :=
  if !from_cs.is_database || !to_cs.is_database then none
  else
    from_cs.table.foldl (dconf_changeset_diff_step2 to_cs)
      (to_cs.table.foldl (dconf_changeset_diff_step1 from_cs) none)

/-- The contents of a GVDB hash file: keys mapped to variant values.
For a lock table only the presence of keys matters. -/
abbrev GvdbTable := List (String × Val)

/-- gvdb_table_get_value. -/
def gvdb_table_get_value (t : GvdbTable) (key : String) : Option Val :=
  (t.find? (fun e => e.1 == key)).map (fun e => e.2)

/-- gvdb_table_has_value. -/
def gvdb_table_has_value (t : GvdbTable) (key : String) : Bool :=
  (t.find? (fun e => e.1 == key)).isSome

/-- One layer of the database stack (DConfEngineSource).  Only the
fields the engine logic reads are modelled: the writability flag, the
current GVDB contents (absent when the database could not be opened),
the .locks subtable, and the RPC endpoint coordinates (bus_type zero
means the source has no endpoint, as in the C truth test). -/
structure DConfEngineSource where
  writable : Bool
  values : Option GvdbTable
  locks : Option GvdbTable
  bus_type : Nat
  object_path : String
  deriving DecidableEq, Repr

/-- Subscription count tables: path to positive reference count. -/
abbrev CountTbl := List (String × Nat)

/-- struct _DConfEngine: the source stack (immutable spine), the write
queue (pending and in-flight changesets), the last handled reply tag
and the two subscription count tables. -/
structure DConfEngine where
  sources : List DConfEngineSource
  pending : Option DConfChangeset
  in_flight : Option DConfChangeset
  last_handled : Option String
  establishing : CountTbl
  active : CountTbl
  deriving DecidableEq, Repr

/-- DConfReadFlags: DCONF_READ_USER_VALUE and DCONF_READ_DEFAULT_VALUE
(DCONF_READ_FLAGS_NONE is both false). -/
structure DConfReadFlags where
  user_value : Bool
  default_value : Bool
  deriving DecidableEq, Repr

def DCONF_READ_FLAGS_NONE : DConfReadFlags :=
  { user_value := false, default_value := false }

def DCONF_READ_USER_VALUE : DConfReadFlags :=
  { user_value := true, default_value := false }

/-- Does the source at index i hold a lock on the key? -/
def dconf_engine_source_has_lock (e : DConfEngine) (i : Nat) (key : String) : Bool :=
  match e.sources.get? i with
  | some s =>
      match s.locks with
      | some t => gvdb_table_has_value t key
      | none => false
  | none => false

/-- Step 1 of dconf_engine_read: scan the sources from index i down to
index 1 (locks in source 0 are ignored) and stop at the first source
whose .locks subtable contains the key.  Zero means no lock found. -/
def dconf_engine_lock_scan (e : DConfEngine) (key : String) : Nat → Nat
  | 0 => 0
  | i + 1 =>
      if dconf_engine_source_has_lock e (i + 1) key then i + 1
      else dconf_engine_lock_scan e key i

/-- The lock level computed by dconf_engine_read: the scan starts at
the highest source index. -/
def dconf_engine_lock_level (e : DConfEngine) (key : String) : Nat :=
  dconf_engine_lock_scan e key (e.sources.length - 1)

/-- Step 5 of dconf_engine_read: walk a suffix of the source stack in
order, returning the first present value (sources with no open GVDB
are skipped). -/
def dconf_engine_sources_walk (srcs : List DConfEngineSource) (key : String) : Option Val :=
  match srcs with
  | [] => none
  | s :: rest =>
      match s.values with
      | none => dconf_engine_sources_walk rest key
      | some t =>
          match gvdb_table_get_value t key with
          | some v => some v
          | none => dconf_engine_sources_walk rest key

/-- dconf_engine_find_key_in_queue: search the read-through queue from
its tail to its head (the Lean list is in head-to-tail order). -/
def dconf_engine_find_key_in_queue (queue : List DConfChangeset) (key : String) :
    Option (Option Val) :=
  match queue with
  | [] => none
  | c :: rest =>
      match dconf_engine_find_key_in_queue rest key with
      | some r => some r
      | none => dconf_changeset_get c key

/-- dconf_engine_read, translated step by step from the C source: lock
scan, then (when no lock was found and the first source is writable)
the DEFAULT_VALUE short-circuit, the read-through queue, the pending
and in-flight queues and source 0, and finally the walk of the
remaining sources from max(lock_level, consumed). -/
def dconf_engine_read (e : DConfEngine) (flags : DConfReadFlags)
    (read_through : List DConfChangeset) (key : String) : Option Val :=
  let lock_level := if flags.user_value then 0 else dconf_engine_lock_level e key
  let first_writable := match e.sources with
    | [] => false
    | s :: _ => s.writable
  if lock_level == 0 && first_writable then
    let found : Option (Option Val) :=
      if flags.default_value then some none
      else
        match dconf_engine_find_key_in_queue read_through key with
        | some r => some r
        | none =>
            match e.pending.bind (fun p => dconf_changeset_get p key) with
            | some r => some r
            | none => e.in_flight.bind (fun p => dconf_changeset_get p key)
    let value : Option Val :=
      match found with
      | some r => r
      | none =>
          match e.sources with
          | [] => none
          | s :: _ => match s.values with
            | some t => gvdb_table_get_value t key
            | none => none
    if flags.user_value then value
    else
      match value with
      | some v => some v
      | none => dconf_engine_sources_walk (e.sources.drop 1) key
  else
    if flags.user_value then none
    else dconf_engine_sources_walk (e.sources.drop lock_level) key

/-- dconf_engine_is_writable_internal: at least one source, the first
source is writable, and no non-first source holds a lock on the key. -/
def dconf_engine_is_writable_internal (e : DConfEngine) (key : String) : Bool :=
  match e.sources with
  | [] => false
  | s0 :: rest =>
      s0.writable &&
      rest.all (fun s =>
        match s.locks with
        | some t => !gvdb_table_has_value t key
        | none => true)

theorem tblGet_tblInsert (k q : String) (v : Option Val) (t : Tbl) :
    tblGet (tblInsert k v t) q = if q = k then some v else tblGet t q := by
  induction t with
  | nil =>
      by_cases h : q = k
      · simp [tblInsert, tblGet, List.find?_cons, h]
      · simp [tblInsert, tblGet, List.find?_cons, h, Ne.symm h]
  | cons e rest ih =>
      obtain ⟨a, b⟩ := e
      by_cases he : a = k
      · subst he
        by_cases h : q = a
        · simp [tblInsert, tblGet, List.find?_cons, h]
        · simp [tblInsert, tblGet, List.find?_cons, h, Ne.symm h]
      · by_cases hq : a = q
        · subst hq
          simp [tblInsert, he, tblGet, List.find?_cons, Ne.symm he]
        · by_cases h : q = k <;>
            simp_all [tblInsert, he, tblGet, List.find?_cons, hq]

theorem tblGet_filter_none (t : Tbl) (p : String × Option Val → Bool) (k : String)
    (h : ∀ v, p (k, v) = false) :
    tblGet (t.filter p) k = none := by
  induction t with
  | nil => rfl
  | cons e rest ih =>
      obtain ⟨a, b⟩ := e
      by_cases hk : a = k
      · subst hk
        simp [List.filter_cons, h b, ih]
      · by_cases hp : p (a, b) = true
        · rw [List.filter_cons, if_pos hp]
          simp only [tblGet]
          rw [List.find?_cons_of_neg _ (by simp [hk])]
          exact ih
        · simp [List.filter_cons, hp, ih]

theorem tblGet_filter_keep (t : Tbl) (p : String × Option Val → Bool) (k : String)
    (h : ∀ v, p (k, v) = true) :
    tblGet (t.filter p) k = tblGet t k := by
  induction t with
  | nil => rfl
  | cons e rest ih =>
      obtain ⟨a, b⟩ := e
      by_cases hk : a = k
      · subst hk
        simp [List.filter_cons, h b, tblGet, List.find?_cons]
      · by_cases hp : p (a, b) = true
        · simp_all [List.filter_cons, tblGet, List.find?_cons, hk]
        · simp_all [List.filter_cons, tblGet, List.find?_cons, hk]

theorem strStarts_refl (s : String) : strStarts s s = true := by
  simp [strStarts, List.isPrefixOf_iff_prefix]

/-- C7: for a delta-mode changeset and a dir path d, set (d, none)
drops every entry whose path has d as a prefix, records the single
entry d mapped to none, leaves paths outside d untouched, and set with
a non-null value on a dir path is rejected without modification. -/
theorem C7_dir_reset_subsumption (c : DConfChangeset) (d : String)
    (hdb : c.is_database = false) (hseal : c.is_sealed = false)
    (hpath : dconf_is_path d = true) (hdir : strEnds d "/" = true) :
    (∀ p, strStarts p d = true → p ≠ d →
        dconf_changeset_get (dconf_changeset_set c d none) p = none) ∧
    dconf_changeset_get (dconf_changeset_set c d none) d = some none ∧
    (∀ p, strStarts p d = false →
        dconf_changeset_get (dconf_changeset_set c d none) p =
          dconf_changeset_get c p) ∧
    (∀ v, dconf_changeset_set c d (some v) = c) := by
  have hset : dconf_changeset_set c d none =
      { c with table := tblInsert d none (c.table.filter (fun e => !strStarts e.1 d)) } := by
    simp [dconf_changeset_set, hseal, hpath, hdir, hdb]
  refine ⟨?_, ?_, ?_, ?_⟩
  · intro p hp hne
    rw [hset]
    show tblGet (tblInsert d none (c.table.filter (fun e => !strStarts e.1 d))) p = none
    rw [tblGet_tblInsert, if_neg hne]
    exact tblGet_filter_none _ _ _ (fun v => by simp [hp])
  · rw [hset]
    show tblGet (tblInsert d none (c.table.filter (fun e => !strStarts e.1 d))) d =
      some none
    rw [tblGet_tblInsert, if_pos rfl]
  · intro p hp
    have hne : p ≠ d := by
      intro h
      rw [h, strStarts_refl] at hp
      exact absurd hp (by simp)
    rw [hset]
    show tblGet (tblInsert d none (c.table.filter (fun e => !strStarts e.1 d))) p =
      tblGet c.table p
    rw [tblGet_tblInsert, if_neg hne]
    exact tblGet_filter_keep _ _ _ (fun v => by simp [hp])
  · intro v
    simp [dconf_changeset_set, hseal, hpath, hdir]

/-- Witness for C7 at a concrete changeset holding a write under the
dir, a write elsewhere and the dir itself. -/
theorem C7_dir_reset_subsumption_witness :
    dconf_changeset_get
      (dconf_changeset_set
        { table := [("/a/x", some (Val.vi 1)), ("/b/y", some (Val.vi 2))],
          is_database := false, is_sealed := false } "/a/" none) "/a/x" = none ∧
    dconf_changeset_get
      (dconf_changeset_set
        { table := [("/a/x", some (Val.vi 1)), ("/b/y", some (Val.vi 2))],
          is_database := false, is_sealed := false } "/a/" none) "/a/" = some none := by
  have h := C7_dir_reset_subsumption
    { table := [("/a/x", some (Val.vi 1)), ("/b/y", some (Val.vi 2))],
      is_database := false, is_sealed := false } "/a/"
    rfl rfl (by decide) (by decide)
  exact ⟨h.1 "/a/x" (by decide) (by decide), h.2.1⟩

/-- C9: a deserialised changeset is always in delta mode and unsealed,
even when the serialised changeset was in database mode. -/
theorem C9_deserialise_delta_mode (c : DConfChangeset) :
    (dconf_changeset_deserialise (dconf_changeset_serialise c)).is_database = false ∧
    (dconf_changeset_deserialise (dconf_changeset_serialise c)).is_sealed = false :=
  ⟨rfl, rfl⟩

theorem deserialiseStep_eq (t : Tbl) (e : String × Option Val) :
    deserialiseStep t e = if entryOK e then tblInsert e.1 e.2 t else t := by
  obtain ⟨a, b⟩ := e
  cases b <;> rfl

theorem tblGet_eq_none_iff (t : Tbl) (k : String) :
    tblGet t k = none ↔ ∀ e ∈ t, e.1 ≠ k := by
  simp [tblGet, List.find?_eq_none]

theorem tblGet_eq_some_mem (t : Tbl) (k : String) (v : Option Val)
    (h : tblGet t k = some v) : (k, v) ∈ t := by
  simp only [tblGet, Option.map_eq_some'] at h
  obtain ⟨e, hfind, hv⟩ := h
  have hm := List.mem_of_find?_eq_some hfind
  have hp := List.find?_some hfind
  have hk : e.1 = k := by simpa using hp
  have he : e = (k, v) := by
    obtain ⟨a, b⟩ := e
    simp_all
  rwa [he] at hm

theorem tblGet_foldl_step_not_mem (s : List (String × Option Val)) (t : Tbl)
    (k : String) (h : ∀ e ∈ s, e.1 ≠ k) :
    tblGet (s.foldl deserialiseStep t) k = tblGet t k := by
  induction s generalizing t with
  | nil => rfl
  | cons e rest ih =>
      rw [List.foldl_cons, ih _ (fun x hx => h x (List.mem_cons_of_mem _ hx))]
      rw [deserialiseStep_eq]
      by_cases ho : entryOK e = true
      · rw [if_pos ho, tblGet_tblInsert,
          if_neg (Ne.symm (h e (List.mem_cons_self _ _)))]
      · rw [if_neg (by simpa using ho)]

theorem tblGet_foldl_step_mem (s : List (String × Option Val)) (t : Tbl)
    (k : String) (v : Option Val) (hnd : (s.map Prod.fst).Nodup)
    (hmem : (k, v) ∈ s) (hok : entryOK (k, v) = true) :
    tblGet (s.foldl deserialiseStep t) k = some v := by
  induction s generalizing t with
  | nil => cases hmem
  | cons e rest ih =>
      rw [List.map_cons, List.nodup_cons] at hnd
      rw [List.foldl_cons]
      rcases List.mem_cons.mp hmem with heq | hrest
      · have hek : e.1 = k := by rw [← heq]
        have hrest_ne : ∀ x ∈ rest, x.1 ≠ k := by
          intro x hx hxk
          exact hnd.1 (by
            rw [hek, ← hxk]
            exact List.mem_map_of_mem Prod.fst hx)
        rw [tblGet_foldl_step_not_mem rest _ k hrest_ne]
        rw [deserialiseStep_eq, ← heq, if_pos hok]
        show tblGet (tblInsert k v t) k = some v
        rw [tblGet_tblInsert, if_pos rfl]
      · exact ih _ hnd.2 hrest

theorem mem_tblInsert (k : String) (v : Option Val) (t : Tbl)
    (e : String × Option Val) (h : e ∈ tblInsert k v t) : e = (k, v) ∨ e ∈ t := by
  induction t with
  | nil => simpa [tblInsert] using h
  | cons x rest ih =>
      by_cases hx : x.1 = k
      · rw [tblInsert, if_pos hx] at h
        rcases List.mem_cons.mp h with h1 | h2
        · exact Or.inl h1
        · exact Or.inr (List.mem_cons_of_mem _ h2)
      · rw [tblInsert, if_neg hx] at h
        rcases List.mem_cons.mp h with h1 | h2
        · exact Or.inr (h1 ▸ List.mem_cons_self _ _)
        · rcases ih h2 with h3 | h4
          · exact Or.inl h3
          · exact Or.inr (List.mem_cons_of_mem _ h4)

theorem foldl_step_entryOK (s : List (String × Option Val)) (t : Tbl)
    (ht : ∀ e ∈ t, entryOK e = true) :
    ∀ e ∈ s.foldl deserialiseStep t, entryOK e = true := by
  induction s generalizing t with
  | nil => exact ht
  | cons x rest ih =>
      rw [List.foldl_cons]
      apply ih
      rw [deserialiseStep_eq]
      by_cases ho : entryOK x = true
      · rw [if_pos ho]
        intro e he
        rcases mem_tblInsert _ _ _ _ he with h1 | h2
        · rw [h1]
          exact ho
        · exact ht e h2
      · rw [if_neg (by simpa using ho)]
        exact ht

/-- C6: serialising and deserialising a well-formed changeset (valid
paths, no value assigned to a dir, no duplicate keys) preserves the key
set and the per-key optional values; and deserialisation of arbitrary
input never fails, every surviving entry being well formed (malformed
entries are silently dropped). -/
theorem C6_changeset_round_trip (c : DConfChangeset)
    (hwf : tblWF c.table)
    (hvalid : ∀ e ∈ c.table, entryOK e = true) :
    (∀ k, dconf_changeset_get (dconf_changeset_deserialise (dconf_changeset_serialise c)) k
        = dconf_changeset_get c k) ∧
    (∀ s : List (String × Option Val), ∀ e ∈ (dconf_changeset_deserialise s).table,
        entryOK e = true) := by
  constructor
  · intro k
    show tblGet (c.table.foldl deserialiseStep []) k = tblGet c.table k
    cases h : tblGet c.table k with
    | none =>
        rw [tblGet_foldl_step_not_mem _ _ _ ((tblGet_eq_none_iff _ _).mp h)]
        rfl
    | some v =>
        have hm := tblGet_eq_some_mem _ _ _ h
        exact tblGet_foldl_step_mem _ _ _ _ hwf hm (hvalid _ hm)
  · intro s e he
    exact foldl_step_entryOK s [] (by intro x hx; cases hx) e he

/-- Witness for C6 at a changeset holding a key write, a key reset and
a dir reset. -/
theorem C6_changeset_round_trip_witness :
    tblWF ([("/a/x", some (Val.vi 5)), ("/a/y", none), ("/b/", none)] : Tbl) ∧
    dconf_changeset_get
      (dconf_changeset_deserialise (dconf_changeset_serialise
        { table := [("/a/x", some (Val.vi 5)), ("/a/y", none), ("/b/", none)],
          is_database := false, is_sealed := false })) "/a/x" =
      dconf_changeset_get
        { table := [("/a/x", some (Val.vi 5)), ("/a/y", none), ("/b/", none)],
          is_database := false, is_sealed := false } "/a/x" := by
  refine ⟨by decide, ?_⟩
  exact (C6_changeset_round_trip
    { table := [("/a/x", some (Val.vi 5)), ("/a/y", none), ("/b/", none)],
      is_database := false, is_sealed := false }
    (by decide) (by decide)).1 "/a/x"

/-- Modelled from the spec: the service-side dconf-gvdb-utils.c is not
in the source tree (only its header is).  The on-disk state of the
writable database as a database-mode changeset: every key of the GVDB
table with its value; an absent table reads as empty. -/
def dconf_gvdb_utils_changeset_from_table (table : Option GvdbTable) : DConfChangeset :=
  { table := (table.getD []).map (fun e => (e.1, some e.2)),
    is_database := true, is_sealed := false }

/-- Modelled from the spec: the hash table built by
dconf_gvdb_utils_table_from_changeset contains every key of the
database together with every enclosing dir, so a dir is present exactly
when some key lies under it. -/
def dconf_gvdb_utils_table_from_changeset_has (database : DConfChangeset)
    (path : String) : Bool :=
  database.table.any (fun e => e.1 == path || (strEnds path "/" && strStarts e.1 path))

/-- Modelled from the spec (section 4.2): dconf_changeset_filter_changes
is not in the source tree.  Only entries that would actually alter the
base are kept: a dir reset when the base has a key under the dir, a key
reset when the base has the key, a write when the base value differs.
NULL when nothing is kept. -/
def dconf_changeset_filter_changes (base delta : DConfChangeset) :
    Option DConfChangeset :=
  let kept := delta.table.filter (fun e =>
    if strEnds e.1 "/" then base.table.any (fun b => strStarts b.1 e.1)
    else
      match e.2 with
      | none => (tblGet base.table e.1).isSome
      | some v => (tblGet base.table e.1).join != some v)
  if kept.isEmpty then none
  else some { table := kept, is_database := false, is_sealed := false }

/-- dconf_engine_dir_has_writable_contents: the on-disk state of the
first source with the in-flight and the (filtered) pending changes
applied, checked for contents at the dir.  False when there is no
writable source. -/
def dconf_engine_dir_has_writable_contents (e : DConfEngine) (dir : String) : Bool :=
  match e.sources with
  | [] => false
  | s0 :: _ =>
      if !s0.writable then false
      else
        let database := dconf_gvdb_utils_changeset_from_table s0.values
        let database := match e.in_flight with
          | some f => dconf_changeset_change database f
          | none => database
        let database := match e.pending with
          | some p =>
              match dconf_changeset_filter_changes database p with
              | some changes => dconf_changeset_change database changes
              | none => database
          | none => database
        dconf_gvdb_utils_table_from_changeset_has database dir

/-- dconf_engine_path_has_value_predicate: setting the path to the
value would have no effect — a dir reset over a dir with no writable
contents, or a write or reset matching the current USER_VALUE read. -/
def dconf_engine_path_has_value_predicate (e : DConfEngine) (path : String)
    (new_value : Option Val) : Bool :=
  if strEnds path "/" then !dconf_engine_dir_has_writable_contents e path
  else
    match dconf_engine_read e DCONF_READ_USER_VALUE [] path, new_value with
    | none, none => true
    | some a, some b => a == b
    | _, _ => false

/-- dconf_engine_is_writable_changeset_predicate: resets always
succeed, writes need a writable key. -/
def dconf_engine_is_writable_changeset_predicate (e : DConfEngine) (key : String)
    (value : Option Val) : Bool :=
  value.isNone || dconf_engine_is_writable_internal e key

/-- dconf_engine_changeset_changes_only_writable_keys (the NotWritable
error is produced exactly when this is false). -/
def dconf_engine_changeset_changes_only_writable_keys (e : DConfEngine)
    (c : DConfChangeset) : Bool :=
  dconf_changeset_all c (dconf_engine_is_writable_changeset_predicate e)

/-- dconf_engine_manage_queue: promote pending to in-flight when
nothing is in flight, sealing it and sending the Change RPC.  The Bool
records whether an RPC was sent. -/
def dconf_engine_manage_queue (e : DConfEngine) : DConfEngine × Bool :=
  match e.pending, e.in_flight with
  | some p, none =>
      ({ e with pending := none, in_flight := some (dconf_changeset_seal p) }, true)
  | _, _ => (e, false)

/-- The observable outcome of dconf_engine_change_fast: the return
value, the engine state afterwards, whether queue management sent a
Change RPC, and whether a change notification was emitted. -/
structure ChangeFastResult where
  ok : Bool
  engine : DConfEngine
  sent_rpc : Bool
  emitted : Bool
  deriving DecidableEq, Repr

/-- dconf_engine_change_fast, translated step by step: empty changes
succeed immediately; the no-effect flag is evaluated; non-writable keys
fail with NotWritable before anything is queued; otherwise the sealed
changeset is merged into pending, the queue is managed, and a change
notification is emitted unless the change had no effect. -/
def dconf_engine_change_fast (e : DConfEngine) (changeset : DConfChangeset) :
    ChangeFastResult :=
  if dconf_changeset_is_empty changeset then
    { ok := true, engine := e, sent_rpc := false, emitted := false }
  else
    let has_no_effect := dconf_changeset_all changeset
      (dconf_engine_path_has_value_predicate e)
    if !dconf_engine_changeset_changes_only_writable_keys e changeset then
      { ok := false, engine := e, sent_rpc := false, emitted := false }
    else
      let sealedc := dconf_changeset_seal changeset
      let p0 := match e.pending with
        | none => dconf_changeset_new
        | some p => p
      let p1 := dconf_changeset_change p0 sealedc
      let me := dconf_engine_manage_queue { e with pending := some p1 }
      { ok := true, engine := me.1, sent_rpc := me.2, emitted := !has_no_effect }

/-- The observable outcome of dconf_engine_change_completed. -/
structure ChangeCompletedResult where
  engine : DConfEngine
  sent_rpc : Bool
  emitted : Bool
  deriving DecidableEq, Repr

/-- dconf_engine_change_completed, translated step by step: the
in-flight changeset is cleared, the queue re-managed (possibly sending
the next Change RPC); a successful reply records its tag as
last_handled, a failure emits a change notification covering the
dropped changeset. -/
def dconf_engine_change_completed (e : DConfEngine) (reply : Option String) :
    ChangeCompletedResult :=
  let me := dconf_engine_manage_queue { e with in_flight := none }
  match reply with
  | some tag =>
      { engine := { me.1 with last_handled := some tag },
        sent_rpc := me.2, emitted := false }
  | none => { engine := me.1, sent_rpc := me.2, emitted := true }

theorem dconf_engine_is_writable_iff (e : DConfEngine) (k : String) :
    dconf_engine_is_writable_internal e k = true ↔
      ∃ s0, e.sources.head? = some s0 ∧ s0.writable = true ∧
        ∀ i, dconf_engine_source_has_lock e (i + 1) k = false := by
  obtain ⟨srcs, pend, infl, lh, est, act⟩ := e
  cases srcs with
  | nil => simp [dconf_engine_is_writable_internal]
  | cons sh st =>
      simp only [dconf_engine_is_writable_internal, List.head?_cons]
      have hlock : ∀ i, dconf_engine_source_has_lock
          { sources := sh :: st, pending := pend, in_flight := infl,
            last_handled := lh, establishing := est, active := act } (i + 1) k =
          (match st.get? i with
            | some s =>
                match s.locks with
                | some t => gvdb_table_has_value t k
                | none => false
            | none => false) := fun i => rfl
      constructor
      · intro h
        rw [Bool.and_eq_true] at h
        refine ⟨sh, rfl, h.1, ?_⟩
        intro i
        rw [hlock i]
        cases hg : st.get? i with
        | none => rfl
        | some s =>
            have hs : s ∈ st := List.get?_mem hg
            have hp := List.all_eq_true.mp h.2 s hs
            cases hl : s.locks with
            | none => simp [hl]
            | some t => simpa [hl] using hp
      · rintro ⟨s1, hs1, hw1, hlocks⟩
        have hss : s1 = sh := by injection hs1 with hh; exact hh.symm
        subst hss
        rw [Bool.and_eq_true]
        refine ⟨hw1, List.all_eq_true.mpr ?_⟩
        intro s hs
        obtain ⟨i, hg⟩ := List.mem_iff_get?.mp hs
        have hli := hlocks i
        rw [hlock i, hg] at hli
        cases hl : s.locks with
        | none => simp
        | some t => simpa [hl] using hli

/-- C5: change_fast on a non-empty changeset fails with NotWritable
exactly when some non-reset entry targets a non-writable key; on
failure the engine state (in particular the pending and in-flight
queues) is untouched, no RPC is sent and no change notification is
emitted; and a key is writable exactly when there is a first source,
it is writable, and no source of index at least one locks the key. -/
theorem C5_change_fast_not_writable (e : DConfEngine) (c : DConfChangeset)
    (hne : c.table ≠ []) :
    ((dconf_engine_change_fast e c).ok = false ↔
      ∃ ent ∈ c.table, ent.2 ≠ none ∧
        dconf_engine_is_writable_internal e ent.1 = false) ∧
    ((dconf_engine_change_fast e c).ok = false →
      (dconf_engine_change_fast e c).engine = e ∧
      (dconf_engine_change_fast e c).sent_rpc = false ∧
      (dconf_engine_change_fast e c).emitted = false) ∧
    (∀ k, dconf_engine_is_writable_internal e k = true ↔
      ∃ s0, e.sources.head? = some s0 ∧ s0.writable = true ∧
        ∀ i, dconf_engine_source_has_lock e (i + 1) k = false) := by
  have hempty : dconf_changeset_is_empty c = false := by
    simpa [dconf_changeset_is_empty, List.isEmpty_iff] using hne
  by_cases hw : dconf_engine_changeset_changes_only_writable_keys e c = true
  · have hok : (dconf_engine_change_fast e c).ok = true := by
      simp [dconf_engine_change_fast, hempty, hw]
    refine ⟨?_, ?_, fun k => dconf_engine_is_writable_iff e k⟩
    · rw [hok]
      simp only [Bool.true_eq_false, false_iff]
      rintro ⟨ent, hmem, hval, hnw⟩
      have := List.all_eq_true.mp hw ent hmem
      rw [dconf_engine_is_writable_changeset_predicate, Bool.or_eq_true] at this
      rcases this with h1 | h2
      · exact hval (Option.isNone_iff_eq_none.mp h1)
      · rw [h2] at hnw
        cases hnw
    · intro hk
      rw [hok] at hk
      cases hk
  · have hres : dconf_engine_change_fast e c =
        { ok := false, engine := e, sent_rpc := false, emitted := false } := by
      simp [dconf_engine_change_fast, hempty, hw]
    refine ⟨?_, ?_, fun k => dconf_engine_is_writable_iff e k⟩
    · rw [hres]
      simp only [true_iff]
      rw [dconf_engine_changeset_changes_only_writable_keys, dconf_changeset_all] at hw
      have hex : ∃ ent ∈ c.table,
          dconf_engine_is_writable_changeset_predicate e ent.1 ent.2 = false := by
        by_contra hall
        push_neg at hall
        exact hw (List.all_eq_true.mpr (fun x hx => Bool.ne_false_iff.mp (hall x hx)))
      obtain ⟨ent, hmem, hp⟩ := hex
      rw [dconf_engine_is_writable_changeset_predicate, Bool.or_eq_false_iff] at hp
      refine ⟨ent, hmem, ?_, hp.2⟩
      intro hv
      rw [hv] at hp
      simp at hp
    · intro _
      rw [hres]
      exact ⟨rfl, rfl, rfl⟩

/-- A two-source stack whose non-first source locks the key /k. -/
def sampleLockedEngine : DConfEngine :=
  { sources := [
      { writable := true, values := some [], locks := none,
        bus_type := 1, object_path := "/ca/desrt/dconf/Writer/user" },
      { writable := false, values := some [("/k", Val.vi 7)],
        locks := some [("/k", Val.vb true)],
        bus_type := 1, object_path := "/ca/desrt/dconf/Writer/site" }],
    pending := none, in_flight := none, last_handled := none,
    establishing := [], active := [] }

/-- Witness for C5: writing to the locked key /k fails and leaves the
engine untouched. -/
theorem C5_change_fast_not_writable_witness :
    (([("/k", some (Val.vi 1))] : Tbl) ≠ []) ∧
    (dconf_engine_change_fast sampleLockedEngine
      { table := [("/k", some (Val.vi 1))], is_database := false,
        is_sealed := false }).ok = false ∧
    (dconf_engine_change_fast sampleLockedEngine
      { table := [("/k", some (Val.vi 1))], is_database := false,
        is_sealed := false }).engine = sampleLockedEngine := by
  have h := C5_change_fast_not_writable sampleLockedEngine
    { table := [("/k", some (Val.vi 1))], is_database := false, is_sealed := false }
    (by decide)
  have hok := h.1.mpr ⟨("/k", some (Val.vi 1)), by decide, by decide, by decide⟩
  exact ⟨by decide, hok, (h.2.1 hok).1⟩

/-- The junk checks of the Notify branch of
dconf_engine_handle_dbus_signal: a non-empty change list; a key prefix
requires exactly one empty change string; a dir prefix requires every
change to be a valid relative path. -/
def dconf_engine_notify_body_ok (pfx : String) (changes : List String) : Bool :=
  match changes with
  | [] => false
  | c0 :: rest =>
      if dconf_is_key pfx then c0 == "" && rest.isEmpty
      else if dconf_is_dir pfx then (c0 :: rest).all (fun c => dconf_is_rel_path c)
      else false

/-- dconf_engine_is_interested_in_signal: some source has its endpoint
on this bus at this object path (the sender argument is unused in the
C function as well). -/
def dconf_engine_is_interested_in_signal (e : DConfEngine) (bus_type : Nat)
    (object_path : String) : Bool :=
  e.sources.any (fun s => s.bus_type == bus_type && s.object_path == object_path)

/-- One engine's handling of an inbound Notify signal
(dconf_engine_handle_dbus_signal, Notify member): true exactly when the
user-visible change-notify callback is invoked — the body passes the
junk checks, the tag differs from last_handled, and a source endpoint
matches. -/
def dconf_engine_handle_notify (e : DConfEngine) (bus_type : Nat)
    (object_path : String) (pfx : String) (changes : List String)
    (tag : String) : Bool :=
  dconf_engine_notify_body_ok pfx changes &&
  (match e.last_handled with
   | some t => !(t == tag)
   | none => true) &&
  dconf_engine_is_interested_in_signal e bus_type object_path

/-- C4: after a successful change_fast completion with reply tag T the
engine records T as last_handled, a subsequent Notify carrying tag T
never reaches the change-notify callback, and a Notify with any other
tag, a well-formed body and a matching source endpoint does. -/
theorem C4_echo_suppression (e : DConfEngine) (T : String) (bt : Nat)
    (op pfx : String) (changes : List String) :
    (dconf_engine_change_completed e (some T)).engine.last_handled = some T ∧
    dconf_engine_handle_notify (dconf_engine_change_completed e (some T)).engine
      bt op pfx changes T = false ∧
    (∀ tag, tag ≠ T →
      dconf_engine_notify_body_ok pfx changes = true →
      dconf_engine_is_interested_in_signal
        (dconf_engine_change_completed e (some T)).engine bt op = true →
      dconf_engine_handle_notify (dconf_engine_change_completed e (some T)).engine
        bt op pfx changes tag = true) := by
  have hlast : (dconf_engine_change_completed e (some T)).engine.last_handled = some T := rfl
  refine ⟨hlast, ?_, ?_⟩
  · rw [dconf_engine_handle_notify, hlast]
    simp
  · intro tag hne hbody hint
    rw [dconf_engine_handle_notify, hlast, hbody, hint]
    simp [Ne.symm hne]

/-- Witness for C4 on a concrete engine: tag1 is suppressed, tag2 is
delivered. -/
theorem C4_echo_suppression_witness :
    dconf_engine_handle_notify
      (dconf_engine_change_completed sampleLockedEngine (some "tag1")).engine
      1 "/ca/desrt/dconf/Writer/user" "/k" [""] "tag1" = false ∧
    dconf_engine_handle_notify
      (dconf_engine_change_completed sampleLockedEngine (some "tag1")).engine
      1 "/ca/desrt/dconf/Writer/user" "/k" [""] "tag2" = true := by
  have h := C4_echo_suppression sampleLockedEngine "tag1" 1
    "/ca/desrt/dconf/Writer/user" "/k" [""]
  exact ⟨h.2.1, h.2.2 "tag2" (by decide) (by decide) (by decide)⟩

theorem dconf_engine_lock_scan_nonzero_has (e : DConfEngine) (key : String)
    (m : Nat) (h : dconf_engine_lock_scan e key m ≠ 0) :
    1 ≤ dconf_engine_lock_scan e key m ∧
    dconf_engine_source_has_lock e (dconf_engine_lock_scan e key m) key = true := by
  induction m with
  | zero => exact absurd rfl h
  | succ i ih =>
      by_cases hl : dconf_engine_source_has_lock e (i + 1) key = true
      · have heq : dconf_engine_lock_scan e key (i + 1) = i + 1 := by
          simp only [dconf_engine_lock_scan]
          rw [if_pos hl]
        rw [heq]
        exact ⟨by omega, hl⟩
      · have heq : dconf_engine_lock_scan e key (i + 1) =
            dconf_engine_lock_scan e key i := by
          simp only [dconf_engine_lock_scan]
          rw [if_neg hl]
        rw [heq] at h ⊢
        exact ih h

theorem dconf_engine_lock_scan_ge (e : DConfEngine) (key : String)
    (m j : Nat) (hj1 : 1 ≤ j) (hjm : j ≤ m)
    (hl : dconf_engine_source_has_lock e j key = true) :
    j ≤ dconf_engine_lock_scan e key m := by
  induction m with
  | zero => omega
  | succ i ih =>
      by_cases hi : dconf_engine_source_has_lock e (i + 1) key = true
      · have heq : dconf_engine_lock_scan e key (i + 1) = i + 1 := by
          simp only [dconf_engine_lock_scan]
          rw [if_pos hi]
        rw [heq]
        exact hjm
      · have heq : dconf_engine_lock_scan e key (i + 1) =
            dconf_engine_lock_scan e key i := by
          simp only [dconf_engine_lock_scan]
          rw [if_neg hi]
        rw [heq]
        rcases Nat.lt_or_ge j (i + 1) with hlt | hge
        · exact ih (Nat.lt_succ_iff.mp hlt)
        · have hji : j = i + 1 := Nat.le_antisymm hjm hge
          rw [hji] at hl
          exact absurd hl hi

theorem dconf_engine_has_lock_lt (e : DConfEngine) (key : String) (i : Nat)
    (h : dconf_engine_source_has_lock e i key = true) : i < e.sources.length := by
  by_contra hge
  have : e.sources.get? i = none := List.get?_eq_none.mpr (by omega)
  rw [dconf_engine_source_has_lock, this] at h
  cases h

/-- C1 (amended): when some non-first source holds a lock on the key,
a read with default flags equals the plain walk of the sources from the
highest locked index upward, whatever the read-through list and the
pending and in-flight queues hold; the lock level is at least the index
of any locked source. -/
theorem C1_lock_opacity_amended (e : DConfEngine) (key : String)
    (read_through : List DConfChangeset) (i : Nat)
    (hi : 1 ≤ i) (hl : dconf_engine_source_has_lock e i key = true) :
    1 ≤ dconf_engine_lock_level e key ∧
    dconf_engine_source_has_lock e (dconf_engine_lock_level e key) key = true ∧
    i ≤ dconf_engine_lock_level e key ∧
    (∀ j, 1 ≤ j → dconf_engine_source_has_lock e j key = true →
      j ≤ dconf_engine_lock_level e key) ∧
    dconf_engine_read e DCONF_READ_FLAGS_NONE read_through key =
      dconf_engine_sources_walk (e.sources.drop (dconf_engine_lock_level e key)) key := by
  have hibound : i < e.sources.length := dconf_engine_has_lock_lt e key i hl
  have him : i ≤ e.sources.length - 1 := by omega
  have hge := dconf_engine_lock_scan_ge e key (e.sources.length - 1) i hi him hl
  have hnz : dconf_engine_lock_level e key ≠ 0 := by
    rw [dconf_engine_lock_level]
    omega
  have hhas := dconf_engine_lock_scan_nonzero_has e key (e.sources.length - 1) hnz
  refine ⟨hhas.1, hhas.2, hge, ?_, ?_⟩
  · intro j hj1 hjl
    have hjb : j < e.sources.length := dconf_engine_has_lock_lt e key j hjl
    exact dconf_engine_lock_scan_ge e key (e.sources.length - 1) j hj1 (by omega) hjl
  · rw [dconf_engine_read]
    have : (if DCONF_READ_FLAGS_NONE.user_value then 0
        else dconf_engine_lock_level e key) = dconf_engine_lock_level e key := rfl
    simp only [this, DCONF_READ_FLAGS_NONE]
    rw [if_neg (by simp [hnz])]
    rfl

/-- A stack with locks on /a in both source 1 and source 2, holding
different values for /a. -/
def multiLockEngine : DConfEngine :=
  { sources := [
      { writable := true, values := some [], locks := none,
        bus_type := 1, object_path := "/ca/desrt/dconf/Writer/user" },
      { writable := false, values := some [("/a", Val.vi 1)],
        locks := some [("/a", Val.vb true)],
        bus_type := 0, object_path := "" },
      { writable := false, values := some [("/a", Val.vi 2)],
        locks := some [("/a", Val.vb true)],
        bus_type := 0, object_path := "" }],
    pending := none, in_flight := none, last_handled := none,
    establishing := [], active := [] }

/-- Counterexample to C1 as stated: source 1 holds a lock on /a
(an index i with 1 ≤ i), yet the default-flags read of /a differs from
the walk of sources 1.. — the scan stops at the higher lock, source 2,
whose value shadows source 1 in the read but not in the claimed walk. -/
theorem C1_lock_opacity_counterexample :
    (1 : Nat) ≤ 1 ∧
    dconf_engine_source_has_lock multiLockEngine 1 "/a" = true ∧
    dconf_engine_read multiLockEngine DCONF_READ_FLAGS_NONE [] "/a" ≠
      dconf_engine_sources_walk (multiLockEngine.sources.drop 1) "/a" := by
  decide

/-- Witness for the amended C1 at the two-lock engine. -/
theorem C1_lock_opacity_amended_witness :
    (1 : Nat) ≤ 1 ∧
    dconf_engine_source_has_lock multiLockEngine 1 "/a" = true ∧
    dconf_engine_read multiLockEngine DCONF_READ_FLAGS_NONE [] "/a" =
      dconf_engine_sources_walk
        (multiLockEngine.sources.drop (dconf_engine_lock_level multiLockEngine "/a"))
        "/a" := by
  refine ⟨by decide, by decide, ?_⟩
  exact (C1_lock_opacity_amended multiLockEngine "/a" [] 1 (by decide) (by decide)).2.2.2.2

/-- An event on the engine write queue: a change_fast call, or the
completion reply for the in-flight Change RPC (a tag on success, none
on failure). -/
inductive QueueEvent where
  | fast (c : DConfChangeset)
  | completed (reply : Option String)

/-- One step of the queue subsystem.  The state pairs the engine with
the number of Change RPCs currently on the wire (sent and not yet
replied to). -/
def queueStep (s : DConfEngine × Nat) : QueueEvent → DConfEngine × Nat
  | QueueEvent.fast c =>
      let r := dconf_engine_change_fast s.1 c
      (r.engine, s.2 + (if r.sent_rpc then 1 else 0))
  | QueueEvent.completed reply =>
      let r := dconf_engine_change_completed s.1 reply
      (r.engine, (s.2 - 1) + (if r.sent_rpc then 1 else 0))

/-- The reachable states of the queue subsystem: empty queues and no
RPC on the wire initially; any interleaving of change_fast calls and
completion replies, a completion being possible only while a request is
in flight. -/
inductive QueueReachable : DConfEngine × Nat → Prop where
  | init (e : DConfEngine) (hp : e.pending = none) (hf : e.in_flight = none) :
      QueueReachable (e, 0)
  | fast {s} (h : QueueReachable s) (c : DConfChangeset) :
      QueueReachable (queueStep s (QueueEvent.fast c))
  | completed {s} (h : QueueReachable s) (hf : s.1.in_flight.isSome = true)
      (reply : Option String) :
      QueueReachable (queueStep s (QueueEvent.completed reply))

theorem dconf_engine_change_fast_queue_invariant (e : DConfEngine)
    (c : DConfChangeset) (n : Nat)
    (h1 : n = (if e.in_flight.isSome then 1 else 0))
    (h2 : e.pending.isSome = true → e.in_flight.isSome = true) :
    (n + (if (dconf_engine_change_fast e c).sent_rpc then 1 else 0)) =
      (if (dconf_engine_change_fast e c).engine.in_flight.isSome then 1 else 0) ∧
    ((dconf_engine_change_fast e c).engine.pending.isSome = true →
      (dconf_engine_change_fast e c).engine.in_flight.isSome = true) := by
  by_cases hemp : dconf_changeset_is_empty c = true
  · exact ⟨by simp [dconf_engine_change_fast, hemp, h1],
      by simpa [dconf_engine_change_fast, hemp] using h2⟩
  · by_cases hw : dconf_engine_changeset_changes_only_writable_keys e c = true
    · cases hf : e.in_flight with
      | none =>
          have hn : n = 0 := by rw [h1, hf]; rfl
          simp [dconf_engine_change_fast, hemp, hw, dconf_engine_manage_queue, hf, hn]
      | some f =>
          have hn : n = 1 := by simp [h1, hf]
          simp [dconf_engine_change_fast, hemp, hw, dconf_engine_manage_queue, hf, hn]
    · refine ⟨by simp [dconf_engine_change_fast, hemp, hw, h1], ?_⟩
      intro hp
      have hp2 : e.pending.isSome = true := by
        simpa [dconf_engine_change_fast, hemp, hw] using hp
      simpa [dconf_engine_change_fast, hemp, hw] using h2 hp2

theorem dconf_engine_change_completed_queue_invariant (e : DConfEngine)
    (reply : Option String) (n : Nat)
    (hf : e.in_flight.isSome = true)
    (h1 : n = (if e.in_flight.isSome then 1 else 0)) :
    ((n - 1) + (if (dconf_engine_change_completed e reply).sent_rpc then 1 else 0)) =
      (if (dconf_engine_change_completed e reply).engine.in_flight.isSome
        then 1 else 0) ∧
    ((dconf_engine_change_completed e reply).engine.pending.isSome = true →
      (dconf_engine_change_completed e reply).engine.in_flight.isSome = true) := by
  have hn : n = 1 := by simp [h1, hf]
  cases hp : e.pending with
  | none =>
      cases reply with
      | none => simp [dconf_engine_change_completed, dconf_engine_manage_queue, hp, hn]
      | some tag =>
          simp [dconf_engine_change_completed, dconf_engine_manage_queue, hp, hn]
  | some p =>
      cases reply with
      | none => simp [dconf_engine_change_completed, dconf_engine_manage_queue, hp, hn]
      | some tag =>
          simp [dconf_engine_change_completed, dconf_engine_manage_queue, hp, hn]

/-- C3: in every reachable state of the write queue, the number of
Change RPCs on the wire equals one exactly while a changeset is in
flight (so at most one RPC is ever in flight), a pending changeset
exists only while an in-flight one does, and the queue never holds more
than two changesets (one in flight plus the single coalesced pending
one), however many change_fast calls were made. -/
theorem C3_queue_coalescing (s : DConfEngine × Nat) (h : QueueReachable s) :
    s.2 = (if s.1.in_flight.isSome then 1 else 0) ∧
    (s.1.pending.isSome = true → s.1.in_flight.isSome = true) ∧
    s.2 ≤ 1 ∧
    (if s.1.pending.isSome then 1 else 0) +
      (if s.1.in_flight.isSome then 1 else 0) ≤ 2 := by
  induction h with
  | init e hp hf => simp [hp, hf]
  | fast hr c ih =>
      rename_i st
      have hh := dconf_engine_change_fast_queue_invariant st.1 c st.2 ih.1 ih.2.1
      refine ⟨hh.1, hh.2, ?_, ?_⟩
      · show st.2 + (if (dconf_engine_change_fast st.1 c).sent_rpc then 1 else 0) ≤ 1
        rw [hh.1]
        split <;> omega
      · show (if (dconf_engine_change_fast st.1 c).engine.pending.isSome
            then 1 else 0) +
          (if (dconf_engine_change_fast st.1 c).engine.in_flight.isSome
            then 1 else 0) ≤ 2
        split <;> split <;> omega
  | completed hr hf reply ih =>
      rename_i st
      have hh := dconf_engine_change_completed_queue_invariant st.1 reply st.2 hf ih.1
      refine ⟨hh.1, hh.2, ?_, ?_⟩
      · show (st.2 - 1) +
          (if (dconf_engine_change_completed st.1 reply).sent_rpc then 1 else 0) ≤ 1
        rw [hh.1]
        split <;> omega
      · show (if (dconf_engine_change_completed st.1 reply).engine.pending.isSome
            then 1 else 0) +
          (if (dconf_engine_change_completed st.1 reply).engine.in_flight.isSome
            then 1 else 0) ≤ 2
        split <;> split <;> omega

/-- Witness for C3: the state reached by one change_fast call writing
/x from an engine with empty queues. -/
theorem C3_queue_coalescing_witness :
    (queueStep (sampleLockedEngine, 0)
      (QueueEvent.fast
        { table := [("/x", some (Val.vi 3))], is_database := false,
          is_sealed := false })).2 ≤ 1 ∧
    ((queueStep (sampleLockedEngine, 0)
      (QueueEvent.fast
        { table := [("/x", some (Val.vi 3))], is_database := false,
          is_sealed := false })).1.pending.isSome = true →
      (queueStep (sampleLockedEngine, 0)
        (QueueEvent.fast
          { table := [("/x", some (Val.vi 3))], is_database := false,
            is_sealed := false })).1.in_flight.isSome = true) := by
  have h := C3_queue_coalescing _
    (QueueReachable.fast (QueueReachable.init sampleLockedEngine rfl rfl)
      { table := [("/x", some (Val.vi 3))], is_database := false,
        is_sealed := false })
  exact ⟨h.2.2.1, h.2.1⟩

/-- g_hash_table_replace for the subscription count tables. -/
def cntReplace (path : String) (n : Nat) : CountTbl → CountTbl
  | [] => [(path, n)]
  | e :: rest => if e.1 = path then (path, n) :: rest else e :: cntReplace path n rest

/-- g_hash_table_remove for the subscription count tables. -/
def cntRemove (path : String) (t : CountTbl) : CountTbl :=
  t.filter (fun e => e.1 != path)

/-- dconf_engine_count_subscriptions: the count, or zero when absent. -/
def dconf_engine_count_subscriptions (counts : CountTbl) (path : String) : Nat :=
  ((counts.find? (fun e => e.1 == path)).map (fun e => e.2)).getD 0

/-- dconf_engine_inc_subscriptions: the new count paired with the
updated table. -/
def dconf_engine_inc_subscriptions (counts : CountTbl) (path : String) :
    Nat × CountTbl :=
  let n := dconf_engine_count_subscriptions counts path + 1
  (n, cntReplace path n counts)

/-- dconf_engine_dec_subscriptions: the count must be positive (the C
code asserts this); the entry is removed when the count reaches zero. -/
def dconf_engine_dec_subscriptions (counts : CountTbl) (path : String) :
    Nat × CountTbl :=
  let n := dconf_engine_count_subscriptions counts path - 1
  (n, if n = 0 then cntRemove path counts else cntReplace path n counts)

/-- dconf_engine_move_subscriptions: add the source count to the
destination count and drop the source entry (no-op when the source
count is zero). -/
def dconf_engine_move_subscriptions (from_counts to_counts : CountTbl)
    (path : String) : CountTbl × CountTbl :=
  let from_count := dconf_engine_count_subscriptions from_counts path
  let old_to := dconf_engine_count_subscriptions to_counts path
  if from_count ≠ 0 then
    (cntRemove path from_counts, cntReplace path (old_to + from_count) to_counts)
  else (from_counts, to_counts)

/-- The number of sources with an RPC endpoint (bus_type truthy); one
AddMatch or RemoveMatch is dispatched per such source. -/
def dconf_engine_source_endpoints (e : DConfEngine) : Nat :=
  (e.sources.filter (fun s => s.bus_type != 0)).length

/-- The observable outcome of dconf_engine_watch_fast: the engine, the
number of AddMatch RPCs sent, and whether an OutstandingWatch that will
eventually receive its final acknowledgement was created (an
OutstandingWatch with no endpoints never gets a reply). -/
structure WatchFastResult where
  engine : DConfEngine
  add_matches : Nat
  ow_created : Bool
  deriving DecidableEq, Repr

/-- dconf_engine_watch_fast, translated step by step: an active
subscription is just recounted; otherwise the establishing count is
incremented, and only the transition to the first establishing
reference with no sources already active sends one AddMatch per source
endpoint. -/
def dconf_engine_watch_fast (e : DConfEngine) (path : String) : WatchFastResult :=
  let num_establishing := dconf_engine_count_subscriptions e.establishing path
  let num_active := dconf_engine_count_subscriptions e.active path
  let st :=
    if num_active > 0 then
      { e with active := (dconf_engine_inc_subscriptions e.active path).2 }
    else
      { e with establishing := (dconf_engine_inc_subscriptions e.establishing path).2 }
  let num_establishing2 :=
    if num_active > 0 then num_establishing
    else (dconf_engine_inc_subscriptions e.establishing path).1
  if num_establishing2 > 1 || num_active > 0 then
    { engine := st, add_matches := 0, ow_created := false }
  else if e.sources.isEmpty then
    { engine := st, add_matches := 0, ow_created := false }
  else
    { engine := st, add_matches := dconf_engine_source_endpoints e,
      ow_created := dconf_engine_source_endpoints e > 0 }

/-- The observable outcome of dconf_engine_unwatch_fast. -/
structure UnwatchFastResult where
  engine : DConfEngine
  remove_matches : Nat
  deriving DecidableEq, Repr

/-- dconf_engine_unwatch_fast, translated step by step: prefer to
decrement the active count, else the establishing count; when both
reach zero one RemoveMatch is sent per source endpoint. -/
def dconf_engine_unwatch_fast (e : DConfEngine) (path : String) : UnwatchFastResult :=
  let num_active := dconf_engine_count_subscriptions e.active path
  let num_establishing := dconf_engine_count_subscriptions e.establishing path
  if num_active == 0 then
    let d := dconf_engine_dec_subscriptions e.establishing path
    if num_active > 0 || d.1 > 0 then
      { engine := { e with establishing := d.2 }, remove_matches := 0 }
    else
      { engine := { e with establishing := d.2 },
        remove_matches := dconf_engine_source_endpoints e }
  else
    let d := dconf_engine_dec_subscriptions e.active path
    if d.1 > 0 || num_establishing > 0 then
      { engine := { e with active := d.2 }, remove_matches := 0 }
    else
      { engine := { e with active := d.2 },
        remove_matches := dconf_engine_source_endpoints e }

/-- dconf_engine_watch_established (the part acting on the
subscription tables): when the final AddMatch acknowledgement arrives,
any establishing references for the path become active. -/
def dconf_engine_watch_established (e : DConfEngine) (path : String) : DConfEngine :=
  if dconf_engine_count_subscriptions e.establishing path > 0 then
    let m := dconf_engine_move_subscriptions e.establishing e.active path
    { e with establishing := m.1, active := m.2 }
  else e

theorem count_cntReplace (t : CountTbl) (path : String) (n : Nat) :
    dconf_engine_count_subscriptions (cntReplace path n t) path = n := by
  induction t with
  | nil => simp [cntReplace, dconf_engine_count_subscriptions, List.find?_cons]
  | cons e rest ih =>
      obtain ⟨a, b⟩ := e
      by_cases h : a = path
      · subst h
        simp [cntReplace, dconf_engine_count_subscriptions, List.find?_cons]
      · simp only [cntReplace, if_neg h]
        simpa [dconf_engine_count_subscriptions, List.find?_cons, h] using ih

theorem count_cntRemove (t : CountTbl) (path : String) :
    dconf_engine_count_subscriptions (cntRemove path t) path = 0 := by
  induction t with
  | nil => rfl
  | cons e rest ih =>
      obtain ⟨a, b⟩ := e
      by_cases h : a = path
      · simpa [cntRemove, List.filter_cons, h] using ih
      · simpa [cntRemove, List.filter_cons, h, dconf_engine_count_subscriptions,
          List.find?_cons] using ih

theorem count_inc (t : CountTbl) (path : String) :
    dconf_engine_count_subscriptions (dconf_engine_inc_subscriptions t path).2 path =
      dconf_engine_count_subscriptions t path + 1 :=
  count_cntReplace t path _

theorem count_dec (t : CountTbl) (path : String) :
    dconf_engine_count_subscriptions (dconf_engine_dec_subscriptions t path).2 path =
      dconf_engine_count_subscriptions t path - 1 := by
  simp only [dconf_engine_dec_subscriptions]
  by_cases h : dconf_engine_count_subscriptions t path - 1 = 0
  · rw [if_pos h, count_cntRemove, h]
  · rw [if_neg h, count_cntReplace]

theorem count_move (ft tt : CountTbl) (path : String) :
    dconf_engine_count_subscriptions
        (dconf_engine_move_subscriptions ft tt path).1 path +
      dconf_engine_count_subscriptions
        (dconf_engine_move_subscriptions ft tt path).2 path =
      dconf_engine_count_subscriptions ft path +
        dconf_engine_count_subscriptions tt path := by
  rw [dconf_engine_move_subscriptions]
  by_cases h : dconf_engine_count_subscriptions ft path ≠ 0
  · simp only [if_pos h]
    rw [count_cntRemove, count_cntReplace]
    omega
  · simp only [if_neg h]

theorem watch_fast_engine (e : DConfEngine) (p : String) :
    (dconf_engine_watch_fast e p).engine =
      if 0 < dconf_engine_count_subscriptions e.active p then
        { e with active := (dconf_engine_inc_subscriptions e.active p).2 }
      else
        { e with establishing := (dconf_engine_inc_subscriptions e.establishing p).2 } := by
  by_cases h : 0 < dconf_engine_count_subscriptions e.active p
  · simp only [dconf_engine_watch_fast, gt_iff_lt, h, if_pos h]
    simp
  · simp only [dconf_engine_watch_fast, gt_iff_lt, h, if_neg h]
    split_ifs <;> rfl

theorem watch_fast_sources (e : DConfEngine) (p : String) :
    (dconf_engine_watch_fast e p).engine.sources = e.sources := by
  rw [watch_fast_engine]
  split <;> rfl

theorem unwatch_fast_est (e : DConfEngine) (p : String)
    (hact : dconf_engine_count_subscriptions e.active p = 0) :
    (dconf_engine_unwatch_fast e p).engine =
      { e with establishing := (dconf_engine_dec_subscriptions e.establishing p).2 } ∧
    (dconf_engine_unwatch_fast e p).remove_matches =
      (if 0 < dconf_engine_count_subscriptions e.establishing p - 1 then 0
       else dconf_engine_source_endpoints e) := by
  have hd1 : (dconf_engine_dec_subscriptions e.establishing p).1 =
      dconf_engine_count_subscriptions e.establishing p - 1 := rfl
  simp only [dconf_engine_unwatch_fast, hact, hd1]
  split_ifs with h1 h2 <;> simp_all

theorem unwatch_fast_act (e : DConfEngine) (p : String)
    (hact : 0 < dconf_engine_count_subscriptions e.active p) :
    (dconf_engine_unwatch_fast e p).engine =
      { e with active := (dconf_engine_dec_subscriptions e.active p).2 } ∧
    (dconf_engine_unwatch_fast e p).remove_matches =
      (if 0 < dconf_engine_count_subscriptions e.active p - 1 ∨
          0 < dconf_engine_count_subscriptions e.establishing p then 0
       else dconf_engine_source_endpoints e) := by
  have hne : (dconf_engine_count_subscriptions e.active p == 0) = false := by
    simp
    omega
  have hd1 : (dconf_engine_dec_subscriptions e.active p).1 =
      dconf_engine_count_subscriptions e.active p - 1 := rfl
  simp only [dconf_engine_unwatch_fast, hne, hd1, Bool.false_eq_true, if_false]
  split_ifs with h1 h2 <;> simp_all

theorem watch_established_sum (e : DConfEngine) (p : String) :
    dconf_engine_count_subscriptions
        (dconf_engine_watch_established e p).establishing p +
      dconf_engine_count_subscriptions (dconf_engine_watch_established e p).active p =
      dconf_engine_count_subscriptions e.establishing p +
        dconf_engine_count_subscriptions e.active p := by
  rw [dconf_engine_watch_established]
  split_ifs with h
  · exact count_move e.establishing e.active p
  · rfl

theorem watch_established_sources (e : DConfEngine) (p : String) :
    (dconf_engine_watch_established e p).sources = e.sources := by
  rw [dconf_engine_watch_established]
  split_ifs <;> rfl

theorem watch_fast_counts_active (e : DConfEngine) (p : String)
    (h : 0 < dconf_engine_count_subscriptions e.active p) :
    dconf_engine_count_subscriptions (dconf_engine_watch_fast e p).engine.active p =
      dconf_engine_count_subscriptions e.active p + 1 ∧
    dconf_engine_count_subscriptions
        (dconf_engine_watch_fast e p).engine.establishing p =
      dconf_engine_count_subscriptions e.establishing p := by
  rw [watch_fast_engine, if_pos h]
  exact ⟨count_inc _ _, rfl⟩

theorem watch_fast_counts_inactive (e : DConfEngine) (p : String)
    (h : ¬ 0 < dconf_engine_count_subscriptions e.active p) :
    dconf_engine_count_subscriptions
        (dconf_engine_watch_fast e p).engine.establishing p =
      dconf_engine_count_subscriptions e.establishing p + 1 ∧
    dconf_engine_count_subscriptions (dconf_engine_watch_fast e p).engine.active p =
      dconf_engine_count_subscriptions e.active p := by
  rw [watch_fast_engine, if_neg h]
  exact ⟨count_inc _ _, rfl⟩

theorem endpoints_congr (e1 e2 : DConfEngine) (h : e1.sources = e2.sources) :
    dconf_engine_source_endpoints e1 = dconf_engine_source_endpoints e2 := by
  rw [dconf_engine_source_endpoints, dconf_engine_source_endpoints, h]

theorem watch_fast_first_add (e : DConfEngine) (p : String)
    (hest : dconf_engine_count_subscriptions e.establishing p = 0)
    (hact : dconf_engine_count_subscriptions e.active p = 0) :
    (dconf_engine_watch_fast e p).add_matches = dconf_engine_source_endpoints e := by
  have hinc : (dconf_engine_inc_subscriptions e.establishing p).1 =
      dconf_engine_count_subscriptions e.establishing p + 1 := rfl
  simp only [dconf_engine_watch_fast, hinc, hest, hact]
  norm_num
  split_ifs with h1
  · cases hs : e.sources with
    | nil => simp [dconf_engine_source_endpoints, hs]
    | cons a l =>
        rw [hs] at h1
        simp at h1
  · rfl

theorem watch_fast_subsequent_add (e : DConfEngine) (p : String)
    (hest : 0 < dconf_engine_count_subscriptions e.establishing p) :
    (dconf_engine_watch_fast e p).add_matches = 0 := by
  have hinc : (dconf_engine_inc_subscriptions e.establishing p).1 =
      dconf_engine_count_subscriptions e.establishing p + 1 := rfl
  by_cases hact : 0 < dconf_engine_count_subscriptions e.active p
  · simp [dconf_engine_watch_fast, hact]
  · have hgt : dconf_engine_count_subscriptions e.establishing p + 1 > 1 := by omega
    simp [dconf_engine_watch_fast, hact, hinc, hgt]

theorem watch_fast_empty_add (e : DConfEngine) (p : String) (hsrc : e.sources = []) :
    (dconf_engine_watch_fast e p).add_matches = 0 := by
  simp only [dconf_engine_watch_fast, hsrc]
  split_ifs <;> simp_all [dconf_engine_source_endpoints, hsrc]

theorem watch_fast_empty_ow (e : DConfEngine) (p : String) (hsrc : e.sources = []) :
    (dconf_engine_watch_fast e p).ow_created = false := by
  simp only [dconf_engine_watch_fast, hsrc]
  split_ifs <;> simp_all [dconf_engine_source_endpoints, hsrc]

/-- The state of the subscription subsystem for one path: the engine,
the number of outstanding watches still awaiting their final AddMatch
acknowledgement, and cumulative counts of AddMatch and RemoveMatch
RPCs sent and of watch_fast and unwatch_fast calls made. -/
structure WatchState where
  engine : DConfEngine
  outstanding : Nat
  add_matches : Nat
  remove_matches : Nat
  watch_calls : Nat
  unwatch_calls : Nat
  deriving DecidableEq, Repr

inductive WatchEvent where
  | watch
  | unwatch
  | ack
  deriving DecidableEq, Repr

/-- One step of the subscription subsystem at path p. -/
def watchStep (p : String) (s : WatchState) : WatchEvent → WatchState
  | WatchEvent.watch =>
      let r := dconf_engine_watch_fast s.engine p
      { engine := r.engine,
        outstanding := s.outstanding + (if r.ow_created then 1 else 0),
        add_matches := s.add_matches + r.add_matches,
        remove_matches := s.remove_matches,
        watch_calls := s.watch_calls + 1,
        unwatch_calls := s.unwatch_calls }
  | WatchEvent.unwatch =>
      let r := dconf_engine_unwatch_fast s.engine p
      { engine := r.engine, outstanding := s.outstanding,
        add_matches := s.add_matches,
        remove_matches := s.remove_matches + r.remove_matches,
        watch_calls := s.watch_calls, unwatch_calls := s.unwatch_calls + 1 }
  | WatchEvent.ack =>
      { engine := dconf_engine_watch_established s.engine p,
        outstanding := s.outstanding - 1,
        add_matches := s.add_matches, remove_matches := s.remove_matches,
        watch_calls := s.watch_calls, unwatch_calls := s.unwatch_calls }

/-- The initial state: no RPCs sent, no calls made. -/
def watchInit (e : DConfEngine) : WatchState :=
  { engine := e, outstanding := 0, add_matches := 0, remove_matches := 0,
    watch_calls := 0, unwatch_calls := 0 }

/-- Reachable states of the subscription subsystem at path p: start
with no subscriptions on p, then any interleaving of watch_fast,
unwatch_fast (only while subscribed, per the g_assert) and AddMatch
acknowledgements (only while an outstanding watch exists). -/
inductive WatchReachable (p : String) : WatchState → Prop where
  | init (e : DConfEngine)
      (he : dconf_engine_count_subscriptions e.establishing p = 0)
      (ha : dconf_engine_count_subscriptions e.active p = 0) :
      WatchReachable p (watchInit e)
  | watch {s} (h : WatchReachable p s) :
      WatchReachable p (watchStep p s WatchEvent.watch)
  | unwatch {s} (h : WatchReachable p s)
      (hsub : 0 < dconf_engine_count_subscriptions s.engine.establishing p +
        dconf_engine_count_subscriptions s.engine.active p) :
      WatchReachable p (watchStep p s WatchEvent.unwatch)
  | ack {s} (h : WatchReachable p s) (hout : 0 < s.outstanding) :
      WatchReachable p (watchStep p s WatchEvent.ack)

/-- K successive watch calls. -/
def watchN (p : String) (s : WatchState) : Nat → WatchState
  | 0 => s
  | n + 1 => watchStep p (watchN p s n) WatchEvent.watch

/-- j successive unwatch calls. -/
def unwatchN (p : String) (s : WatchState) : Nat → WatchState
  | 0 => s
  | n + 1 => watchStep p (unwatchN p s n) WatchEvent.unwatch

theorem watch_refcount_invariant (p : String) (s : WatchState)
    (h : WatchReachable p s) :
    dconf_engine_count_subscriptions s.engine.establishing p +
      dconf_engine_count_subscriptions s.engine.active p + s.unwatch_calls =
      s.watch_calls := by
  induction h with
  | init e he ha => simp [watchInit, he, ha]
  | watch hr ih =>
      rename_i st
      simp only [watchStep]
      by_cases hact : 0 < dconf_engine_count_subscriptions st.engine.active p
      · have hc := watch_fast_counts_active st.engine p hact
        rw [hc.1, hc.2]
        omega
      · have hc := watch_fast_counts_inactive st.engine p hact
        rw [hc.1, hc.2]
        omega
  | unwatch hr hsub ih =>
      rename_i st
      simp only [watchStep]
      by_cases hact : 0 < dconf_engine_count_subscriptions st.engine.active p
      · rw [(unwatch_fast_act st.engine p hact).1]
        show dconf_engine_count_subscriptions st.engine.establishing p +
          dconf_engine_count_subscriptions
            (dconf_engine_dec_subscriptions st.engine.active p).2 p +
          (st.unwatch_calls + 1) = st.watch_calls
        rw [count_dec]
        omega
      · have hact0 : dconf_engine_count_subscriptions st.engine.active p = 0 := by
          omega
        rw [(unwatch_fast_est st.engine p hact0).1]
        show dconf_engine_count_subscriptions
            (dconf_engine_dec_subscriptions st.engine.establishing p).2 p +
          dconf_engine_count_subscriptions st.engine.active p +
          (st.unwatch_calls + 1) = st.watch_calls
        rw [count_dec]
        omega
  | ack hr hout ih =>
      rename_i st
      simp only [watchStep]
      rw [watch_established_sum]
      omega

theorem watchN_run (p : String) (e0 : DConfEngine)
    (hest : dconf_engine_count_subscriptions e0.establishing p = 0)
    (hact : dconf_engine_count_subscriptions e0.active p = 0) :
    ∀ K, 1 ≤ K →
      dconf_engine_count_subscriptions
        (watchN p (watchInit e0) K).engine.establishing p = K ∧
      dconf_engine_count_subscriptions
        (watchN p (watchInit e0) K).engine.active p = 0 ∧
      (watchN p (watchInit e0) K).engine.sources = e0.sources ∧
      (watchN p (watchInit e0) K).add_matches = dconf_engine_source_endpoints e0 ∧
      (watchN p (watchInit e0) K).remove_matches = 0 := by
  intro K
  induction K with
  | zero => intro hK; exact absurd hK (by omega)
  | succ n ih =>
      intro _
      by_cases hn : n = 0
      · subst hn
        have hna : ¬ 0 < dconf_engine_count_subscriptions e0.active p := by omega
        have hc := watch_fast_counts_inactive e0 p hna
        refine ⟨?_, ?_, ?_, ?_, rfl⟩
        · show dconf_engine_count_subscriptions
            (dconf_engine_watch_fast e0 p).engine.establishing p = 1
          rw [hc.1, hest]
        · show dconf_engine_count_subscriptions
            (dconf_engine_watch_fast e0 p).engine.active p = 0
          rw [hc.2, hact]
        · exact watch_fast_sources e0 p
        · show 0 + (dconf_engine_watch_fast e0 p).add_matches =
            dconf_engine_source_endpoints e0
          rw [watch_fast_first_add e0 p hest hact]
          omega
      · obtain ⟨h1, h2, h3, h4, h5⟩ := ih (by omega)
        have hna : ¬ 0 < dconf_engine_count_subscriptions
            (watchN p (watchInit e0) n).engine.active p := by omega
        have hc := watch_fast_counts_inactive (watchN p (watchInit e0) n).engine p hna
        refine ⟨?_, ?_, ?_, ?_, h5⟩
        · show dconf_engine_count_subscriptions
            (dconf_engine_watch_fast (watchN p (watchInit e0) n).engine p).engine.establishing p =
            n + 1
          rw [hc.1, h1]
        · show dconf_engine_count_subscriptions
            (dconf_engine_watch_fast (watchN p (watchInit e0) n).engine p).engine.active p = 0
          rw [hc.2, h2]
        · show (dconf_engine_watch_fast (watchN p (watchInit e0) n).engine p).engine.sources =
            e0.sources
          rw [watch_fast_sources, h3]
        · show (watchN p (watchInit e0) n).add_matches +
            (dconf_engine_watch_fast (watchN p (watchInit e0) n).engine p).add_matches =
            dconf_engine_source_endpoints e0
          rw [watch_fast_subsequent_add _ p (by omega), h4]
          omega

theorem unwatchN_run (p : String) (s1 : WatchState) (K : Nat) (hK : 1 ≤ K)
    (hest : dconf_engine_count_subscriptions s1.engine.establishing p = K)
    (hact : dconf_engine_count_subscriptions s1.engine.active p = 0)
    (hrm : s1.remove_matches = 0) :
    ∀ j, j ≤ K →
      dconf_engine_count_subscriptions
        (unwatchN p s1 j).engine.establishing p = K - j ∧
      dconf_engine_count_subscriptions (unwatchN p s1 j).engine.active p = 0 ∧
      (unwatchN p s1 j).engine.sources = s1.engine.sources ∧
      (unwatchN p s1 j).remove_matches =
        (if j = K then dconf_engine_source_endpoints s1.engine else 0) := by
  intro j
  induction j with
  | zero =>
      intro _
      refine ⟨by simpa using hest, hact, rfl, ?_⟩
      rw [if_neg (by omega)]
      exact hrm
  | succ n ih =>
      intro hn1
      obtain ⟨h1, h2, h3, h4⟩ := ih (by omega)
      have hu := unwatch_fast_est (unwatchN p s1 n).engine p h2
      refine ⟨?_, ?_, ?_, ?_⟩
      · show dconf_engine_count_subscriptions
          (dconf_engine_unwatch_fast (unwatchN p s1 n).engine p).engine.establishing p =
          K - (n + 1)
        rw [hu.1]
        show dconf_engine_count_subscriptions
          (dconf_engine_dec_subscriptions (unwatchN p s1 n).engine.establishing p).2 p =
          K - (n + 1)
        rw [count_dec, h1]
        omega
      · show dconf_engine_count_subscriptions
          (dconf_engine_unwatch_fast (unwatchN p s1 n).engine p).engine.active p = 0
        rw [hu.1]
        exact h2
      · show (dconf_engine_unwatch_fast (unwatchN p s1 n).engine p).engine.sources =
          s1.engine.sources
        rw [hu.1]
        exact h3
      · show (unwatchN p s1 n).remove_matches +
          (dconf_engine_unwatch_fast (unwatchN p s1 n).engine p).remove_matches =
          (if n + 1 = K then dconf_engine_source_endpoints s1.engine else 0)
        rw [hu.2, h4, h1, endpoints_congr _ _ h3]
        by_cases hnK : n + 1 = K
        · rw [if_pos hnK, if_neg (show ¬ n = K by omega),
            if_neg (show ¬ 0 < K - n - 1 by omega)]
          omega
        · rw [if_neg hnK, if_neg (show ¬ n = K by omega),
            if_pos (show 0 < K - n - 1 by omega)]

/-- C8: for every path p, in every reachable state of the subscription
subsystem the sum of the establishing and active counts for p equals
the number of watch calls minus the number of unwatch calls; and K
watch calls from an unsubscribed state send exactly one AddMatch per
source endpoint in total, while the first K-1 unwatch calls send no
RemoveMatch and the K-th sends exactly one RemoveMatch per endpoint. -/
theorem C8_subscription_refcounting (p : String) :
    (∀ s, WatchReachable p s →
      dconf_engine_count_subscriptions s.engine.establishing p +
        dconf_engine_count_subscriptions s.engine.active p + s.unwatch_calls =
        s.watch_calls) ∧
    (∀ (e0 : DConfEngine) (K j : Nat),
      dconf_engine_count_subscriptions e0.establishing p = 0 →
      dconf_engine_count_subscriptions e0.active p = 0 →
      1 ≤ K → j ≤ K →
      (watchN p (watchInit e0) K).add_matches = dconf_engine_source_endpoints e0 ∧
      (unwatchN p (watchN p (watchInit e0) K) j).remove_matches =
        (if j = K then dconf_engine_source_endpoints e0 else 0)) := by
  constructor
  · exact fun s h => watch_refcount_invariant p s h
  · intro e0 K j he ha hK hj
    obtain ⟨h1, h2, h3, h4, h5⟩ := watchN_run p e0 he ha K hK
    refine ⟨h4, ?_⟩
    have hrun := unwatchN_run p (watchN p (watchInit e0) K) K hK h1 h2 h5 j hj
    rw [hrun.2.2.2, endpoints_congr _ _ h3]

/-- Witness for C8: three watches and three unwatches on /p/ against
the two-endpoint stack. -/
theorem C8_subscription_refcounting_witness :
    (watchN "/p/" (watchInit sampleLockedEngine) 3).add_matches = 2 ∧
    (unwatchN "/p/" (watchN "/p/" (watchInit sampleLockedEngine) 3) 2).remove_matches
      = 0 ∧
    (unwatchN "/p/" (watchN "/p/" (watchInit sampleLockedEngine) 3) 3).remove_matches
      = 2 ∧
    dconf_engine_count_subscriptions
        (watchStep "/p/" (watchInit sampleLockedEngine) WatchEvent.watch).engine.establishing "/p/" +
      dconf_engine_count_subscriptions
        (watchStep "/p/" (watchInit sampleLockedEngine) WatchEvent.watch).engine.active "/p/" +
      (watchStep "/p/" (watchInit sampleLockedEngine) WatchEvent.watch).unwatch_calls =
      (watchStep "/p/" (watchInit sampleLockedEngine) WatchEvent.watch).watch_calls := by
  have h2 := (C8_subscription_refcounting "/p/").2 sampleLockedEngine 3 2
    rfl rfl (by omega) (by omega)
  have h3 := (C8_subscription_refcounting "/p/").2 sampleLockedEngine 3 3
    rfl rfl (by omega) (by omega)
  have hinv := (C8_subscription_refcounting "/p/").1 _
    (WatchReachable.watch (WatchReachable.init sampleLockedEngine rfl rfl))
  refine ⟨h3.1.trans (by decide), ?_, ?_, hinv⟩
  · rw [h2.2]
    decide
  · rw [h3.2]
    decide

/-- C10: on an engine with no sources, watch_fast still increments the
establishing count but sends no AddMatch and creates no outstanding
watch (no acknowledgement will ever arrive, so the count never moves to
active); a matching unwatch_fast brings the count back to zero and
sends no RemoveMatch. -/
theorem C10_watch_zero_sources (e : DConfEngine) (p : String)
    (hsrc : e.sources = [])
    (hest : dconf_engine_count_subscriptions e.establishing p = 0)
    (hact : dconf_engine_count_subscriptions e.active p = 0) :
    dconf_engine_count_subscriptions
      (watchStep p (watchInit e) WatchEvent.watch).engine.establishing p = 1 ∧
    dconf_engine_count_subscriptions
      (watchStep p (watchInit e) WatchEvent.watch).engine.active p = 0 ∧
    (watchStep p (watchInit e) WatchEvent.watch).add_matches = 0 ∧
    (watchStep p (watchInit e) WatchEvent.watch).outstanding = 0 ∧
    dconf_engine_count_subscriptions
      (watchStep p (watchStep p (watchInit e) WatchEvent.watch)
        WatchEvent.unwatch).engine.establishing p = 0 ∧
    dconf_engine_count_subscriptions
      (watchStep p (watchStep p (watchInit e) WatchEvent.watch)
        WatchEvent.unwatch).engine.active p = 0 ∧
    (watchStep p (watchStep p (watchInit e) WatchEvent.watch)
      WatchEvent.unwatch).remove_matches = 0 := by
  have hna : ¬ 0 < dconf_engine_count_subscriptions e.active p := by omega
  have hc := watch_fast_counts_inactive e p hna
  have he1 : dconf_engine_count_subscriptions
      (dconf_engine_watch_fast e p).engine.establishing p = 1 := by
    rw [hc.1, hest]
  have ha1 : dconf_engine_count_subscriptions
      (dconf_engine_watch_fast e p).engine.active p = 0 := by
    rw [hc.2, hact]
  have hu := unwatch_fast_est (dconf_engine_watch_fast e p).engine p ha1
  refine ⟨he1, ha1, ?_, ?_, ?_, ?_, ?_⟩
  · show 0 + (dconf_engine_watch_fast e p).add_matches = 0
    rw [watch_fast_empty_add e p hsrc]
  · show 0 + (if (dconf_engine_watch_fast e p).ow_created then 1 else 0) = 0
    rw [watch_fast_empty_ow e p hsrc]
    rfl
  · show dconf_engine_count_subscriptions
      (dconf_engine_unwatch_fast (dconf_engine_watch_fast e p).engine p).engine.establishing p = 0
    rw [hu.1]
    show dconf_engine_count_subscriptions
      (dconf_engine_dec_subscriptions
        (dconf_engine_watch_fast e p).engine.establishing p).2 p = 0
    rw [count_dec, he1]
  · show dconf_engine_count_subscriptions
      (dconf_engine_unwatch_fast (dconf_engine_watch_fast e p).engine p).engine.active p = 0
    rw [hu.1]
    exact ha1
  · show 0 + (dconf_engine_unwatch_fast (dconf_engine_watch_fast e p).engine p).remove_matches = 0
    rw [hu.2, he1]
    rw [if_neg (by omega)]
    have hsrc1 : (dconf_engine_watch_fast e p).engine.sources = [] := by
      rw [watch_fast_sources, hsrc]
    rw [dconf_engine_source_endpoints, hsrc1]
    rfl

/-- An engine with an empty source list. -/
def zeroSourceEngine : DConfEngine :=
  { sources := [], pending := none, in_flight := none, last_handled := none,
    establishing := [], active := [] }

/-- Witness for C10 at the zero-source engine. -/
theorem C10_watch_zero_sources_witness :
    dconf_engine_count_subscriptions
      (watchStep "/q" (watchInit zeroSourceEngine) WatchEvent.watch).engine.establishing
      "/q" = 1 ∧
    (watchStep "/q" (watchInit zeroSourceEngine) WatchEvent.watch).add_matches = 0 ∧
    (watchStep "/q" (watchStep "/q" (watchInit zeroSourceEngine) WatchEvent.watch)
      WatchEvent.unwatch).remove_matches = 0 := by
  have h := C10_watch_zero_sources zeroSourceEngine "/q" rfl rfl rfl
  exact ⟨h.1, h.2.2.1, h.2.2.2.2.2.2⟩

theorem tblGet_tblRemove_self (t : Tbl) (k : String) :
    tblGet (tblRemove k t) k = none :=
  tblGet_filter_none t _ k (fun v => by simp)

theorem tblGet_tblRemove_ne (t : Tbl) (k q : String) (h : q ≠ k) :
    tblGet (tblRemove k t) q = tblGet t q :=
  tblGet_filter_keep t _ q (fun v => by simp [h])

theorem tblInsert_not_mem_append (t : Tbl) (k : String) (v : Option Val)
    (h : k ∉ t.map Prod.fst) :
    tblInsert k v t = t ++ [(k, v)] := by
  induction t with
  | nil => rfl
  | cons e rest ih =>
      rw [List.map_cons, List.mem_cons] at h
      push_neg at h
      rw [tblInsert, if_neg (fun hh => h.1 hh.symm), ih h.2]
      rfl

theorem tblGet_filter_wf (t : Tbl) (p : String × Option Val → Bool) (k : String)
    (hnd : tblWF t) :
    tblGet (t.filter p) k =
      match tblGet t k with
      | some v => if p (k, v) then some v else none
      | none => none := by
  induction t with
  | nil => rfl
  | cons e rest ih =>
      obtain ⟨a, b⟩ := e
      rw [tblWF, List.map_cons, List.nodup_cons] at hnd
      by_cases hk : a = k
      · subst hk
        have hrest : tblGet rest a = none := by
          rw [tblGet_eq_none_iff]
          intro x hx hxa
          apply hnd.1
          have hm := List.mem_map_of_mem Prod.fst hx
          rwa [hxa] at hm
        have hget : tblGet ((a, b) :: rest) a = some b := by
          simp [tblGet, List.find?_cons]
        rw [hget]
        by_cases hp : p (a, b) = true
        · rw [List.filter_cons, if_pos hp]
          simp only [tblGet, List.find?_cons]
          simp [hp]
        · rw [List.filter_cons, if_neg (by simpa using hp)]
          rw [ih hnd.2, hrest]
          simp [hp]
      · have hget : tblGet ((a, b) :: rest) k = tblGet rest k := by
          simp [tblGet, List.find?_cons, hk]
        rw [hget, List.filter_cons]
        by_cases hp : p (a, b) = true
        · rw [if_pos hp]
          have : tblGet ((a, b) :: rest.filter p) k = tblGet (rest.filter p) k := by
            simp [tblGet, List.find?_cons, hk]
          rw [this, ih hnd.2]
        · rw [if_neg (by simpa using hp), ih hnd.2]

theorem tblGet_map_reset (t : Tbl) (k : String) :
    tblGet (t.map (fun e => (e.1, (none : Option Val)))) k =
      (tblGet t k).map (fun _ => none) := by
  induction t with
  | nil => rfl
  | cons e rest ih =>
      obtain ⟨a, b⟩ := e
      by_cases hk : a = k
      · subst hk
        simp [tblGet, List.find?_cons]
      · simpa [tblGet, List.find?_cons, hk] using ih

theorem tblGet_append (t1 t2 : Tbl) (k : String) :
    tblGet (t1 ++ t2) k =
      match tblGet t1 k with
      | some v => some v
      | none => tblGet t2 k := by
  induction t1 with
  | nil => rfl
  | cons e rest ih =>
      obtain ⟨a, b⟩ := e
      by_cases hk : a = k
      · subst hk
        simp [tblGet, List.find?_cons]
      · simpa [tblGet, List.find?_cons, hk] using ih

theorem dconf_is_key_parts (p : String) (h : dconf_is_key p = true) :
    dconf_is_path p = true ∧ strEnds p "/" = false := by
  rw [dconf_is_key, Bool.and_eq_true] at h
  exact ⟨h.1, by simpa using h.2⟩

theorem dconf_changeset_set_write (c : DConfChangeset) (p : String) (v : Val)
    (hseal : c.is_sealed = false) (hp : dconf_is_key p = true) :
    dconf_changeset_set c p (some v) = { c with table := tblInsert p (some v) c.table } := by
  obtain ⟨hpath, hslash⟩ := dconf_is_key_parts p hp
  simp [dconf_changeset_set, hseal, hpath, hslash]

theorem dconf_changeset_set_reset_db (c : DConfChangeset) (p : String)
    (hseal : c.is_sealed = false) (hp : dconf_is_key p = true)
    (hdb : c.is_database = true) :
    dconf_changeset_set c p none = { c with table := tblRemove p c.table } := by
  obtain ⟨hpath, hslash⟩ := dconf_is_key_parts p hp
  simp [dconf_changeset_set, hseal, hpath, hslash, hdb]

theorem dconf_changeset_set_reset_delta (c : DConfChangeset) (p : String)
    (hseal : c.is_sealed = false) (hp : dconf_is_key p = true)
    (hdb : c.is_database = false) :
    dconf_changeset_set c p none = { c with table := tblInsert p none c.table } := by
  obtain ⟨hpath, hslash⟩ := dconf_is_key_parts p hp
  simp [dconf_changeset_set, hseal, hpath, hslash, hdb]

theorem dconf_changeset_set_flags (c : DConfChangeset) (p : String) (v : Option Val) :
    (dconf_changeset_set c p v).is_database = c.is_database ∧
    (dconf_changeset_set c p v).is_sealed = c.is_sealed := by
  rw [dconf_changeset_set]
  split_ifs <;> exact ⟨rfl, rfl⟩

theorem foldl_set_flags (entries : List (String × Option Val)) (c : DConfChangeset) :
    (entries.foldl (fun acc e => dconf_changeset_set acc e.1 e.2) c).is_database =
      c.is_database ∧
    (entries.foldl (fun acc e => dconf_changeset_set acc e.1 e.2) c).is_sealed =
      c.is_sealed := by
  induction entries generalizing c with
  | nil => exact ⟨rfl, rfl⟩
  | cons e rest ih =>
      rw [List.foldl_cons]
      have hf := dconf_changeset_set_flags c e.1 e.2
      have hr := ih (dconf_changeset_set c e.1 e.2)
      exact ⟨hr.1.trans hf.1, hr.2.trans hf.2⟩

theorem tblGet_foldl_set_not_mem (entries : List (String × Option Val))
    (c : DConfChangeset) (k : String)
    (hk : ∀ e ∈ entries, e.1 ≠ k)
    (hkeys : ∀ e ∈ entries, dconf_is_key e.1 = true)
    (hseal : c.is_sealed = false) (hdb : c.is_database = true) :
    tblGet (entries.foldl (fun acc e => dconf_changeset_set acc e.1 e.2) c).table k =
      tblGet c.table k := by
  induction entries generalizing c with
  | nil => rfl
  | cons e rest ih =>
      rw [List.foldl_cons]
      have hkey := hkeys e (List.mem_cons_self _ _)
      have hflags := dconf_changeset_set_flags c e.1 e.2
      rw [ih _ (fun x hx => hk x (List.mem_cons_of_mem _ hx))
        (fun x hx => hkeys x (List.mem_cons_of_mem _ hx))
        (hflags.2.trans hseal) (hflags.1.trans hdb)]
      cases hv : e.2 with
      | some v =>
          rw [dconf_changeset_set_write c e.1 v hseal hkey]
          show tblGet (tblInsert e.1 (some v) c.table) k = tblGet c.table k
          rw [tblGet_tblInsert, if_neg (Ne.symm (hk e (List.mem_cons_self _ _)))]
      | none =>
          rw [dconf_changeset_set_reset_db c e.1 hseal hkey hdb]
          exact tblGet_tblRemove_ne c.table e.1 k
            (Ne.symm (hk e (List.mem_cons_self _ _)))

theorem tblGet_foldl_set (entries : List (String × Option Val))
    (c : DConfChangeset) (k : String)
    (hkeys : ∀ e ∈ entries, dconf_is_key e.1 = true)
    (hnd : (entries.map Prod.fst).Nodup)
    (hseal : c.is_sealed = false) (hdb : c.is_database = true) :
    tblGet (entries.foldl (fun acc e => dconf_changeset_set acc e.1 e.2) c).table k =
      match entries.find? (fun e => e.1 == k) with
      | some e =>
          match e.2 with
          | some v => some (some v)
          | none => none
      | none => tblGet c.table k := by
  induction entries generalizing c with
  | nil => rfl
  | cons e rest ih =>
      rw [List.map_cons, List.nodup_cons] at hnd
      have hkey := hkeys e (List.mem_cons_self _ _)
      have hflags := dconf_changeset_set_flags c e.1 e.2
      rw [List.foldl_cons]
      by_cases he : e.1 = k
      · rw [List.find?_cons_of_pos _ (by simp [he])]
        have hrest : ∀ x ∈ rest, x.1 ≠ k := by
          intro x hx hxk
          apply hnd.1
          have hm := List.mem_map_of_mem Prod.fst hx
          rwa [hxk, ← he] at hm
        rw [tblGet_foldl_set_not_mem rest _ k hrest
          (fun x hx => hkeys x (List.mem_cons_of_mem _ hx))
          (hflags.2.trans hseal) (hflags.1.trans hdb)]
        show tblGet (dconf_changeset_set c e.1 e.2).table k =
          (match e.2 with
            | some v => some (some v)
            | none => none)
        cases hv : e.2 with
        | some v =>
            rw [dconf_changeset_set_write c e.1 v hseal hkey]
            show tblGet (tblInsert e.1 (some v) c.table) k = some (some v)
            rw [tblGet_tblInsert, if_pos (Eq.symm he)]
        | none =>
            rw [dconf_changeset_set_reset_db c e.1 hseal hkey hdb]
            show tblGet (tblRemove e.1 c.table) k = none
            rw [← he]
            exact tblGet_tblRemove_self c.table e.1
      · rw [List.find?_cons_of_neg _ (by simp [he])]
        rw [ih _ (fun x hx => hkeys x (List.mem_cons_of_mem _ hx)) hnd.2
          (hflags.2.trans hseal) (hflags.1.trans hdb)]
        have hcc : tblGet (dconf_changeset_set c e.1 e.2).table k = tblGet c.table k := by
          cases hv : e.2 with
          | some v =>
              rw [dconf_changeset_set_write c e.1 v hseal hkey]
              show tblGet (tblInsert e.1 (some v) c.table) k = tblGet c.table k
              rw [tblGet_tblInsert, if_neg (fun hh => he hh.symm)]
          | none =>
              rw [dconf_changeset_set_reset_db c e.1 hseal hkey hdb]
              exact tblGet_tblRemove_ne c.table e.1 k (fun hh => he hh.symm)
        rw [hcc]

theorem find?_key_unique (l : List (String × Option Val)) (k : String)
    (hnd : (l.map Prod.fst).Nodup) (e : String × Option Val)
    (he : e ∈ l) (hk : e.1 = k) :
    l.find? (fun x => x.1 == k) = some e := by
  induction l with
  | nil => cases he
  | cons x rest ih =>
      rw [List.map_cons, List.nodup_cons] at hnd
      by_cases hx : x.1 = k
      · rw [List.find?_cons_of_pos _ (by simp [hx])]
        rcases List.mem_cons.mp he with h1 | h2
        · rw [h1]
        · exact absurd (by
            have hm := List.mem_map_of_mem Prod.fst h2
            rwa [hk, ← hx] at hm) hnd.1
      · rw [List.find?_cons_of_neg _ (by simp [hx])]
        rcases List.mem_cons.mp he with h1 | h2
        · exact absurd (h1 ▸ hk) hx
        · exact ih hnd.2 h2

theorem find?_key_of_perm (l1 l2 : List (String × Option Val)) (k : String)
    (hperm : l1.Perm l2) (hnd : (l1.map Prod.fst).Nodup) :
    l1.find? (fun e => e.1 == k) = l2.find? (fun e => e.1 == k) := by
  cases hf : l1.find? (fun e => e.1 == k) with
  | some e =>
      have hm := List.mem_of_find?_eq_some hf
      have hp := List.find?_some hf
      have hk : e.1 = k := by simpa using hp
      have hnd2 : (l2.map Prod.fst).Nodup := (hperm.map Prod.fst).nodup_iff.mp hnd
      exact (find?_key_unique l2 k hnd2 e (hperm.mem_iff.mp hm) hk).symm
  | none =>
      rw [List.find?_eq_none] at hf
      symm
      rw [List.find?_eq_none]
      intro x hx
      exact hf x (hperm.mem_iff.mpr hx)

theorem dconf_changeset_change_db_get (c d : DConfChangeset)
    (hseal : c.is_sealed = false) (hdb : c.is_database = true)
    (hkeys : ∀ e ∈ d.table, dconf_is_key e.1 = true)
    (hnd : tblWF d.table) (k : String) :
    tblGet (dconf_changeset_change c d).table k =
      match d.table.find? (fun e => e.1 == k) with
      | some e =>
          match e.2 with
          | some v => some (some v)
          | none => none
      | none => tblGet c.table k := by
  rw [dconf_changeset_change, if_neg (by simp [hseal])]
  by_cases hemp : d.table.isEmpty = true
  · rw [if_pos hemp]
    have hd : d.table = [] := by
      rwa [List.isEmpty_iff] at hemp
    rw [hd]
    rfl
  · rw [if_neg hemp]
    have hperm : (dconf_changeset_describe d).Perm d.table :=
      List.mergeSort_perm d.table _
    rw [tblGet_foldl_set (dconf_changeset_describe d) c k
      (fun e he => hkeys e (hperm.mem_iff.mp he))
      ((hperm.map Prod.fst).nodup_iff.mpr hnd) hseal hdb]
    rw [find?_key_of_perm (dconf_changeset_describe d) d.table k hperm
      ((hperm.map Prod.fst).nodup_iff.mpr hnd)]

/-- The entries recorded by the first diff pass: keys of the target
changed or missing in the origin. -/
def diffPass1 (from_cs to_cs : DConfChangeset) : Tbl :=
  to_cs.table.filter (fun e => (tblGet from_cs.table e.1).join != e.2)

/-- The entries recorded by the second diff pass: resets for keys of
the origin missing from the target. -/
def diffPass2 (from_cs to_cs : DConfChangeset) : Tbl :=
  (from_cs.table.filter (fun e => ((tblGet to_cs.table e.1).join).isNone)).map
    (fun e => (e.1, (none : Option Val)))

/-- The relation between the lazily allocated diff accumulator and the
table recorded so far: allocation happens exactly on the first record. -/
def DiffAcc (acc : Option DConfChangeset) (t : Tbl) : Prop :=
  (acc = none ∧ t = []) ∨
  (acc = some { table := t, is_database := false, is_sealed := false } ∧ t ≠ [])

theorem diff_fold1_rel (from_cs : DConfChangeset)
    (l : List (String × Option Val)) (acc : Option DConfChangeset) (t0 : Tbl)
    (hR : DiffAcc acc t0)
    (hent : ∀ e ∈ l, dconf_is_key e.1 = true ∧ e.2.isSome = true)
    (hnd : (t0.map Prod.fst ++
      (l.filter (fun e => (tblGet from_cs.table e.1).join != e.2)).map
        Prod.fst).Nodup) :
    DiffAcc (l.foldl (dconf_changeset_diff_step1 from_cs) acc)
      (t0 ++ l.filter (fun e => (tblGet from_cs.table e.1).join != e.2)) := by
  induction l generalizing acc t0 with
  | nil => simpa using hR
  | cons e rest ih =>
      obtain ⟨a, b⟩ := e
      rw [List.foldl_cons]
      by_cases hp : ((tblGet from_cs.table a).join != b) = true
      · obtain ⟨v, hv⟩ := Option.isSome_iff_exists.mp
          (hent (a, b) (List.mem_cons_self _ _)).2
        subst hv
        have hkey := (hent (a, some v) (List.mem_cons_self _ _)).1
        rw [List.filter_cons, if_pos (by simpa using hp)] at hnd ⊢
        rw [List.map_cons] at hnd
        have hnotmem : a ∉ t0.map Prod.fst := by
          rcases List.nodup_append.mp hnd with ⟨hn1, hn2, hdisj⟩
          intro hmem
          exact hdisj hmem (List.mem_cons_self _ _)
        rw [List.append_cons] at hnd
        rw [List.append_cons]
        have hastep : dconf_changeset_diff_step1 from_cs acc (a, some v) =
            some { table := t0 ++ [(a, some v)],
                   is_database := false, is_sealed := false } := by
          rw [dconf_changeset_diff_step1, if_pos (by simpa using hp)]
          rcases hR with ⟨ha, ht⟩ | ⟨ha, ht⟩
          · subst ha
            subst ht
            rw [Option.getD_none,
              dconf_changeset_set_write dconf_changeset_new a v rfl hkey]
            rfl
          · subst ha
            rw [Option.getD_some,
              dconf_changeset_set_write _ a v rfl hkey]
            rw [show ({ table := t0, is_database := false,
                        is_sealed := false } : DConfChangeset).table = t0 from rfl]
            rw [tblInsert_not_mem_append t0 a (some v) hnotmem]
        rw [hastep]
        apply ih
        · exact Or.inr ⟨rfl, by simp⟩
        · exact fun x hx => hent x (List.mem_cons_of_mem _ hx)
        · rw [List.map_append]
          simpa using hnd
      · rw [dconf_changeset_diff_step1, if_neg hp]
        rw [List.filter_cons, if_neg (by simpa using hp)] at hnd ⊢
        exact ih acc t0 hR (fun x hx => hent x (List.mem_cons_of_mem _ hx)) hnd

theorem diff_fold2_rel (to_cs : DConfChangeset)
    (l : List (String × Option Val)) (acc : Option DConfChangeset) (t0 : Tbl)
    (hR : DiffAcc acc t0)
    (hent : ∀ e ∈ l, dconf_is_key e.1 = true)
    (hnd : (t0.map Prod.fst ++
      (l.filter (fun e => ((tblGet to_cs.table e.1).join).isNone)).map
        Prod.fst).Nodup) :
    DiffAcc (l.foldl (dconf_changeset_diff_step2 to_cs) acc)
      (t0 ++ (l.filter (fun e => ((tblGet to_cs.table e.1).join).isNone)).map
        (fun e => (e.1, (none : Option Val)))) := by
  induction l generalizing acc t0 with
  | nil => simpa using hR
  | cons e rest ih =>
      obtain ⟨a, b⟩ := e
      rw [List.foldl_cons]
      by_cases hp : ((tblGet to_cs.table a).join).isNone = true
      · have hkey := hent (a, b) (List.mem_cons_self _ _)
        rw [List.filter_cons, if_pos (by simpa using hp)] at hnd ⊢
        rw [List.map_cons] at hnd
        have hnotmem : a ∉ t0.map Prod.fst := by
          rcases List.nodup_append.mp hnd with ⟨hn1, hn2, hdisj⟩
          intro hmem
          exact hdisj hmem (List.mem_cons_self _ _)
        rw [List.append_cons] at hnd
        rw [List.map_cons, List.append_cons]
        have hastep : dconf_changeset_diff_step2 to_cs acc (a, b) =
            some { table := t0 ++ [(a, (none : Option Val))],
                   is_database := false, is_sealed := false } := by
          rw [dconf_changeset_diff_step2, if_pos (by simpa using hp)]
          rcases hR with ⟨ha, ht⟩ | ⟨ha, ht⟩
          · subst ha
            subst ht
            rw [Option.getD_none,
              dconf_changeset_set_reset_delta dconf_changeset_new a rfl hkey rfl]
            rfl
          · subst ha
            rw [Option.getD_some,
              dconf_changeset_set_reset_delta _ a rfl hkey rfl]
            rw [show ({ table := t0, is_database := false,
                        is_sealed := false } : DConfChangeset).table = t0 from rfl]
            rw [tblInsert_not_mem_append t0 a none hnotmem]
        rw [hastep]
        apply ih
        · exact Or.inr ⟨rfl, by simp⟩
        · exact fun x hx => hent x (List.mem_cons_of_mem _ hx)
        · rw [List.map_append]
          simpa using hnd
      · rw [dconf_changeset_diff_step2, if_neg hp]
        rw [List.filter_cons, if_neg (by simpa using hp)] at hnd ⊢
        exact ih acc t0 hR (fun x hx => hent x (List.mem_cons_of_mem _ hx)) hnd

/-- Well-formedness of a database-mode changeset: database flag set, no
duplicate keys, every entry a valid key carrying a present value. -/
def dbWF (c : DConfChangeset) : Prop :=
  c.is_database = true ∧ tblWF c.table ∧
  ∀ e ∈ c.table, dconf_is_key e.1 = true ∧ e.2.isSome = true

instance (c : DConfChangeset) : Decidable (dbWF c) := by
  unfold dbWF
  infer_instance

theorem tblGet_isSome_of_mem_keys (t : Tbl) (k : String)
    (h : k ∈ t.map Prod.fst) : (tblGet t k).isSome = true := by
  cases hg : tblGet t k with
  | some v => rfl
  | none =>
      rw [tblGet_eq_none_iff] at hg
      obtain ⟨e, he, hek⟩ := List.mem_map.mp h
      exact absurd hek (hg e he)

theorem diffPass2_map_fst (A B : DConfChangeset) :
    (diffPass2 A B).map Prod.fst =
      (A.table.filter (fun e => ((tblGet B.table e.1).join).isNone)).map Prod.fst := by
  rw [diffPass2, List.map_map]
  rfl

theorem diffPass1_keys_nodup (A B : DConfChangeset) (hB : dbWF B) :
    ((diffPass1 A B).map Prod.fst).Nodup :=
  ((List.filter_sublist B.table).map Prod.fst).nodup hB.2.1

theorem diffPass2_keys_nodup (A B : DConfChangeset) (hA : dbWF A) :
    ((diffPass2 A B).map Prod.fst).Nodup := by
  rw [diffPass2_map_fst]
  exact ((List.filter_sublist A.table).map Prod.fst).nodup hA.2.1

theorem diffPass_keys_disjoint (A B : DConfChangeset) (hB : dbWF B) :
    ((diffPass1 A B).map Prod.fst).Disjoint ((diffPass2 A B).map Prod.fst) := by
  intro k hk1 hk2
  rw [diffPass2_map_fst] at hk2
  obtain ⟨e1, he1, hek1⟩ := List.mem_map.mp hk1
  obtain ⟨e2, he2, hek2⟩ := List.mem_map.mp hk2
  have hmem1 : e1 ∈ B.table := List.mem_of_mem_filter he1
  have hsome : (tblGet B.table k).isSome = true :=
    tblGet_isSome_of_mem_keys B.table k (hek1 ▸ List.mem_map_of_mem Prod.fst hmem1)
  obtain ⟨bv, hbv⟩ := Option.isSome_iff_exists.mp hsome
  have hbmem := tblGet_eq_some_mem B.table k bv hbv
  obtain ⟨w, hw⟩ := Option.isSome_iff_exists.mp (hB.2.2 (k, bv) hbmem).2
  have hpred2 := List.of_mem_filter he2
  rw [hek2] at hpred2
  rw [hbv] at hpred2
  simp at hpred2
  rw [hpred2] at hw
  exact Option.noConfusion hw

theorem diff_tables_keys_nodup (A B : DConfChangeset) (hA : dbWF A) (hB : dbWF B) :
    tblWF (diffPass1 A B ++ diffPass2 A B) := by
  rw [tblWF, List.map_append, List.nodup_append]
  exact ⟨diffPass1_keys_nodup A B hB, diffPass2_keys_nodup A B hA,
    diffPass_keys_disjoint A B hB⟩

theorem diff_tables_keys_valid (A B : DConfChangeset) (hA : dbWF A) (hB : dbWF B) :
    ∀ e ∈ diffPass1 A B ++ diffPass2 A B, dconf_is_key e.1 = true := by
  intro e he
  rcases List.mem_append.mp he with h1 | h2
  · exact (hB.2.2 e (List.mem_of_mem_filter h1)).1
  · obtain ⟨x, hx, hex⟩ := List.mem_map.mp h2
    rw [← hex]
    exact (hA.2.2 x (List.mem_of_mem_filter hx)).1

theorem dconf_changeset_diff_spec (from_cs to_cs : DConfChangeset)
    (hfrom : dbWF from_cs) (hto : dbWF to_cs) :
    DiffAcc (dconf_changeset_diff from_cs to_cs)
      (diffPass1 from_cs to_cs ++ diffPass2 from_cs to_cs) := by
  rw [dconf_changeset_diff, if_neg (by simp [hfrom.1, hto.1])]
  have h1 := diff_fold1_rel from_cs to_cs.table none [] (Or.inl ⟨rfl, rfl⟩)
    (fun e he => hto.2.2 e he)
    (by simpa using diffPass1_keys_nodup from_cs to_cs hto)
  have hnd2 : ((diffPass1 from_cs to_cs).map Prod.fst ++
      (from_cs.table.filter
        (fun e => ((tblGet to_cs.table e.1).join).isNone)).map Prod.fst).Nodup := by
    rw [List.nodup_append]
    refine ⟨diffPass1_keys_nodup from_cs to_cs hto, ?_, ?_⟩
    · rw [← diffPass2_map_fst]
      exact diffPass2_keys_nodup from_cs to_cs hfrom
    · rw [← diffPass2_map_fst]
      exact diffPass_keys_disjoint from_cs to_cs hto
  exact diff_fold2_rel to_cs from_cs.table _ (diffPass1 from_cs to_cs)
    (by simpa using h1) (fun e he => (hfrom.2.2 e he).1) hnd2

theorem dconf_changeset_change_db_get2 (c d : DConfChangeset)
    (hseal : c.is_sealed = false) (hdb : c.is_database = true)
    (hkeys : ∀ e ∈ d.table, dconf_is_key e.1 = true)
    (hnd : tblWF d.table) (k : String) :
    tblGet (dconf_changeset_change c d).table k =
      match tblGet d.table k with
      | some (some v) => some (some v)
      | some none => none
      | none => tblGet c.table k := by
  rw [dconf_changeset_change_db_get c d hseal hdb hkeys hnd k]
  cases hf : d.table.find? (fun e => e.1 == k) with
  | none =>
      have hg : tblGet d.table k = none := by simp [tblGet, hf]
      rw [hg]
  | some e =>
      obtain ⟨a, b⟩ := e
      have hg : tblGet d.table k = some b := by simp [tblGet, hf]
      rw [hg]
      cases b <;> rfl

/-- C2: for well-formed database-mode changesets A and B, if
diff (A, B) yields a changeset then applying it (via change) to a copy
of A produces exactly the mapping of B; if diff (A, B) is NULL then A
and B already have the same mapping. -/
theorem C2_database_diff_law (A B : DConfChangeset) (hA : dbWF A) (hB : dbWF B) :
    (∀ d, dconf_changeset_diff A B = some d →
      ∀ k, dconf_changeset_get
          (dconf_changeset_change (dconf_changeset_new_database (some A)) d) k =
        dconf_changeset_get B k) ∧
    (dconf_changeset_diff A B = none →
      ∀ k, dconf_changeset_get A k = dconf_changeset_get B k) := by
  have hspec := dconf_changeset_diff_spec A B hA hB
  constructor
  · intro d hd k
    rcases hspec with ⟨hnone, ht⟩ | ⟨hsome, hne⟩
    · rw [hnone] at hd
      cases hd
    · rw [hsome] at hd
      injection hd with hd
      have hdtab : d.table = diffPass1 A B ++ diffPass2 A B := by rw [← hd]
      have hkeys : ∀ e ∈ d.table, dconf_is_key e.1 = true := by
        rw [hdtab]
        exact diff_tables_keys_valid A B hA hB
      have hnd : tblWF d.table := by
        rw [hdtab]
        exact diff_tables_keys_nodup A B hA hB
      show tblGet (dconf_changeset_change
        (dconf_changeset_new_database (some A)) d).table k = tblGet B.table k
      rw [dconf_changeset_change_db_get2 (dconf_changeset_new_database (some A))
        d rfl rfl hkeys hnd k]
      have hcopy : (dconf_changeset_new_database (some A)).table = A.table := rfl
      rw [hdtab, hcopy, tblGet_append]
      cases hb : tblGet B.table k with
      | some bv =>
          obtain ⟨v, hv⟩ := Option.isSome_iff_exists.mp
            (hB.2.2 (k, bv) (tblGet_eq_some_mem _ _ _ hb)).2
          rw [show (k, bv).2 = bv from rfl] at hv
          subst hv
          by_cases hpred : ((tblGet A.table k).join != some v) = true
          · have hv1 : tblGet (diffPass1 A B) k = some (some v) := by
              rw [diffPass1, tblGet_filter_wf B.table _ k hB.2.1, hb]
              show (if ((tblGet A.table k).join != some v) = true
                  then some (some v) else none) = some (some v)
              rw [if_pos hpred]
            rw [hv1]
          · have hv1 : tblGet (diffPass1 A B) k = none := by
              rw [diffPass1, tblGet_filter_wf B.table _ k hB.2.1, hb]
              show (if ((tblGet A.table k).join != some v) = true
                  then some (some v) else none) = none
              rw [if_neg hpred]
            have hjoin : (tblGet A.table k).join = some v := by
              simpa using hpred
            have hAk : tblGet A.table k = some (some v) := by
              rwa [Option.join_eq_some] at hjoin
            have hv2 : tblGet (diffPass2 A B) k = none := by
              rw [diffPass2, tblGet_map_reset,
                tblGet_filter_wf A.table _ k hA.2.1, hAk]
              show (Option.map (fun _ => (none : Option Val))
                  (if ((tblGet B.table k).join).isNone = true
                    then some (some v) else none)) = none
              rw [hb, if_neg (by simp)]
              rfl
            rw [hv1, hv2]
            exact hAk
      | none =>
          have hv1 : tblGet (diffPass1 A B) k = none := by
            rw [diffPass1, tblGet_filter_wf B.table _ k hB.2.1, hb]
          cases ha : tblGet A.table k with
          | some av =>
              have hv2 : tblGet (diffPass2 A B) k = some none := by
                rw [diffPass2, tblGet_map_reset,
                  tblGet_filter_wf A.table _ k hA.2.1, ha]
                show (Option.map (fun _ => (none : Option Val))
                    (if ((tblGet B.table k).join).isNone = true
                      then some av else none)) = some none
                rw [hb, if_pos (by simp)]
                rfl
              rw [hv1, hv2]
          | none =>
              have hv2 : tblGet (diffPass2 A B) k = none := by
                rw [diffPass2, tblGet_map_reset,
                  tblGet_filter_wf A.table _ k hA.2.1, ha]
                rfl
              rw [hv1, hv2]
  · intro hdiff k
    rcases hspec with ⟨hnone, ht⟩ | ⟨hsome, hne⟩
    · obtain ⟨h1nil, h2nil⟩ := List.append_eq_nil.mp ht
      rw [diffPass1] at h1nil
      rw [diffPass2, List.map_eq_nil_iff] at h2nil
      have h1 := List.filter_eq_nil_iff.mp h1nil
      have h2 := List.filter_eq_nil_iff.mp h2nil
      show tblGet A.table k = tblGet B.table k
      cases hb : tblGet B.table k with
      | some bv =>
          have hmem := tblGet_eq_some_mem _ _ _ hb
          have hne1 := h1 (k, bv) hmem
          have hjoin : (tblGet A.table k).join = bv := by
            simpa using hne1
          obtain ⟨v, hv⟩ := Option.isSome_iff_exists.mp (hB.2.2 (k, bv) hmem).2
          rw [show (k, bv).2 = bv from rfl] at hv
          subst hv
          rwa [Option.join_eq_some] at hjoin
      | none =>
          cases ha : tblGet A.table k with
          | some av =>
              have hmem := tblGet_eq_some_mem _ _ _ ha
              have hne2 := h2 (k, av) hmem
              rw [show (k, av).1 = k from rfl, hb] at hne2
              simp at hne2
          | none => rfl
    · rw [hsome] at hdiff
      cases hdiff

/-- The database pair from the spec scenario: A holds /x=1 and /y=2,
B holds /x=1, /y=3 and /z=4. -/
def dbA : DConfChangeset :=
  { table := [("/x", some (Val.vi 1)), ("/y", some (Val.vi 2))],
    is_database := true, is_sealed := false }

def dbB : DConfChangeset :=
  { table := [("/x", some (Val.vi 1)), ("/y", some (Val.vi 3)),
      ("/z", some (Val.vi 4))],
    is_database := true, is_sealed := false }

/-- Witness for C2: the diff of the scenario databases applied to a
copy of A agrees with B at /y. -/
theorem C2_database_diff_law_witness :
    dbWF dbA ∧ dbWF dbB ∧
    dconf_changeset_get
      (dconf_changeset_change (dconf_changeset_new_database (some dbA))
        { table := [("/y", some (Val.vi 3)), ("/z", some (Val.vi 4))],
          is_database := false, is_sealed := false }) "/y" =
      dconf_changeset_get dbB "/y" := by
  refine ⟨by decide, by decide, ?_⟩
  exact (C2_database_diff_law dbA dbB (by decide) (by decide)).1
    { table := [("/y", some (Val.vi 3)), ("/z", some (Val.vi 4))],
      is_database := false, is_sealed := false }
    (by decide) "/y"
